import Mathlib

/-!
Shallow embedding of `src/sol_usb/gateware/usb/analyzer.py` (class `USBAnalyzer`).

The gateware is a synchronous design in a single clock domain (`usb`):
three `SyncFIFOBuffered` instances (the output ring buffer `data_buffer`,
the staging buffer `packet_buffer`, the pending-lengths queue
`length_buffer`) and two FSMs (`capture` with states START/IDLE/CAPTURE,
`packet_queue` with states IDLE/POP_LENGTH/INSPECT_PACKET/TRANSFER_PACKET/
OVERRUN/CLEAR_OVERRUN).  We model one clock tick as a pure function
`step : AnalyzerState → AnalyzerInput → AnalyzerState`: combinational
signals are functions of the current state and inputs, and all synchronous
(`m.d.usb`) assignments take effect in the returned state.  FIFOs are
modelled as lists (front = read side); a write into a full FIFO and a read
from an empty FIFO are ignored, as in the hardware.  Registers are natural
numbers reduced modulo their bit width (2^16 for the 16-bit
`captured_packet_length` / `packet_length`, 2^17 for the 17-bit
`packet_transferred`).
-/

namespace SOLAnalyzer

/-- States of the `capture` FSM (analyzer.py lines 124-167). -/
inductive CaptureState
  | START
  | IDLE
  | CAPTURE
deriving DecidableEq, Repr

/-- States of the `packet_queue` FSM (analyzer.py lines 169-239). -/
inductive PQState
  | IDLE
  | POP_LENGTH
  | INSPECT_PACKET
  | TRANSFER_PACKET
  | OVERRUN
  | CLEAR_OVERRUN
deriving DecidableEq, Repr

/-- `MAX_PACKET_SIZE_BYTES = 1024 + 1 + 2` — depth of the staging
(`packet_buffer`) FIFO. -/
def MAX_PACKET_SIZE_BYTES : Nat := 1024 + 1 + 2

/-- Depth of the pending-lengths FIFO (`SyncFIFOBuffered(width = 16, depth = 512)`). -/
def LENGTH_FIFO_DEPTH : Nat := 512

/-- One tick's worth of inputs: the UTMI receive handshake, the capture
enable, and the consumer's `stream.ready`. -/
structure AnalyzerInput where
  rx_active      : Bool
  rx_valid       : Bool
  rx_data        : Nat
  capture_enable : Bool
  stream_ready   : Bool
deriving DecidableEq, Repr

/-- The registered state of the analyzer after elaboration. -/
structure AnalyzerState where
  /-- configured `mem_depth` (depth of the output ring buffer) -/
  memSize              : Nat
  /-- state register of the `capture` FSM -/
  captureState         : CaptureState
  /-- state register of the `packet_queue` FSM -/
  pqState              : PQState
  /-- `captured_packet_length`, a 16-bit register -/
  capturedPacketLength : Nat
  /-- `packet_length`, a 16-bit register -/
  packetLength         : Nat
  /-- `packet_transferred`, a 17-bit register -/
  packetTransferred    : Nat
  /-- the sticky `overrun` output register -/
  overrun              : Bool
  /-- contents of `data_buffer` (output ring buffer), front = read side -/
  dataBuffer           : List Nat
  /-- contents of `packet_buffer` (staging buffer), front = read side -/
  packetBuffer         : List Nat
  /-- contents of `length_buffer` (pending lengths), front = read side -/
  lengthBuffer         : List Nat
deriving DecidableEq, Repr

/-- One synchronous tick of a `SyncFIFOBuffered`: a read (`rEn`) pops the
front if the FIFO is non-empty, a write (`wEn`) appends `d` at the back if
the FIFO was not full at the start of the tick (`w_rdy` is computed from
the registered level, so a simultaneous read does not make room for the
write on the same tick). -/
def fifoStep (cap : Nat) (q : List Nat) (rEn wEn : Bool) (d : Nat) : List Nat :=
  let popped := if rEn = true then q.tail else q
  if wEn = true ∧ q.length < cap then popped ++ [d] else popped

/-- `byte_received = self.utmi.rx_valid & self.utmi.rx_active` (line 149). -/
def byte_received (i : AnalyzerInput) : Bool :=
  i.rx_valid && i.rx_active

/-- `packet_buffer.w_en`: asserted only in the CAPTURE state, when a byte
is received (lines 152-155). -/
def packetBufferWEn (s : AnalyzerState) (i : AnalyzerInput) : Bool :=
  decide (s.captureState = CaptureState.CAPTURE) && byte_received i

/-- `length_buffer.w_en`: defaults to 0 (line 120); asserted in CAPTURE
when `rx_active` drops (lines 162-166). -/
def lengthBufferWEn (s : AnalyzerState) (i : AnalyzerInput) : Bool :=
  decide (s.captureState = CaptureState.CAPTURE) && !i.rx_active

/-- `length_buffer.r_en`: asserted only in POP_LENGTH (line 178). -/
def lengthBufferREn (s : AnalyzerState) : Bool :=
  decide (s.pqState = PQState.POP_LENGTH)

/-- `packet_buffer.r_en`: asserted in TRANSFER_PACKET's payload branch
(lines 203-208) and in CLEAR_OVERRUN's discard branch (lines 234-236);
both branches require `packet_transferred ∉ {0, 1}` and `packet_length ≠ 0`. -/
def packetBufferREn (s : AnalyzerState) : Bool :=
  match s.pqState with
  | PQState.TRANSFER_PACKET =>
      decide (s.packetTransferred ≠ 0) && decide (s.packetTransferred ≠ 1) &&
        decide (s.packetLength ≠ 0)
  | PQState.CLEAR_OVERRUN =>
      decide (s.packetTransferred ≠ 0) && decide (s.packetTransferred ≠ 1) &&
        decide (s.packetLength ≠ 0)
  | _ => false

/-- `data_buffer.w_en` / `w_data` coming from the `packet_queue` FSM:
`some d` when the FSM drives a write of byte `d` this tick, `none`
otherwise.  TRANSFER_PACKET (lines 190-213) writes `packet_length[8:16]`
at progress step 0, `packet_length[0:8]` at step 1, then the head of the
staging buffer while `packet_length ≠ 0`; CLEAR_OVERRUN (lines 225-231)
writes `0xff` at progress steps 0 and 1. -/
def dataBufferWrite (s : AnalyzerState) : Option Nat :=
  match s.pqState with
  | PQState.TRANSFER_PACKET =>
      if s.packetTransferred = 0 then some (s.packetLength / 256 % 256)
      else if s.packetTransferred = 1 then some (s.packetLength % 256)
      else if s.packetLength ≠ 0 then some (s.packetBuffer.headD 0)
      else none
  | PQState.CLEAR_OVERRUN =>
      if s.packetTransferred = 0 ∨ s.packetTransferred = 1 then some 0xff else none
  | _ => none

/-- `self.idle` — combinational, `fsm.ongoing('IDLE')` of the capture FSM
(line 126). -/
def idleOut (s : AnalyzerState) : Bool :=
  decide (s.captureState = CaptureState.IDLE)

/-- `self.capturing` — combinational, `fsm.ongoing('CAPTURE')` of the
capture FSM (line 127). -/
def capturingOut (s : AnalyzerState) : Bool :=
  decide (s.captureState = CaptureState.CAPTURE)

/-- `self.sampling` — combinational, `packet_buffer.w_en` (line 118). -/
def samplingOut (s : AnalyzerState) (i : AnalyzerInput) : Bool :=
  packetBufferWEn s i

/-- `self.stream.valid` — combinational, `data_buffer.r_rdy` (line 112). -/
def streamValid (s : AnalyzerState) : Bool :=
  !s.dataBuffer.isEmpty

/-- `self.stream.payload` — combinational, `data_buffer.r_data` (line 114). -/
def streamPayload (s : AnalyzerState) : Nat :=
  s.dataBuffer.headD 0

/-- Next state of the `capture` FSM (lines 131-167). -/
def nextCaptureState (s : AnalyzerState) (i : AnalyzerInput) : CaptureState :=
  match s.captureState with
  | CaptureState.START =>
      if !i.rx_active && i.capture_enable then CaptureState.IDLE else CaptureState.START
  | CaptureState.IDLE =>
      if !i.capture_enable then CaptureState.START
      else if i.rx_active then CaptureState.CAPTURE
      else CaptureState.IDLE
  | CaptureState.CAPTURE =>
      if !i.rx_active then CaptureState.IDLE else CaptureState.CAPTURE

/-- Next state of the `packet_queue` FSM (lines 169-239). -/
def nextPQState (s : AnalyzerState) : PQState :=
  match s.pqState with
  | PQState.IDLE =>
      if s.lengthBuffer.isEmpty then PQState.IDLE else PQState.POP_LENGTH
  | PQState.POP_LENGTH => PQState.INSPECT_PACKET
  | PQState.INSPECT_PACKET =>
      if s.dataBuffer.length + s.packetLength + 2 > s.memSize
      then PQState.OVERRUN else PQState.TRANSFER_PACKET
  | PQState.TRANSFER_PACKET =>
      if s.packetTransferred ≠ 0 ∧ s.packetTransferred ≠ 1 ∧ s.packetLength = 0
      then PQState.IDLE else PQState.TRANSFER_PACKET
  | PQState.OVERRUN =>
      if s.dataBuffer.length + 2 ≤ s.memSize then PQState.CLEAR_OVERRUN else PQState.OVERRUN
  | PQState.CLEAR_OVERRUN =>
      if s.packetTransferred ≠ 0 ∧ s.packetTransferred ≠ 1 ∧ s.packetLength = 0
      then PQState.IDLE else PQState.CLEAR_OVERRUN

/-- Next value of `captured_packet_length`: reset to 0 when leaving IDLE
for CAPTURE (line 143), incremented on each received byte in CAPTURE
(lines 158-159), 16-bit wrap. -/
def nextCPL (s : AnalyzerState) (i : AnalyzerInput) : Nat :=
  match s.captureState with
  | CaptureState.IDLE =>
      if i.capture_enable && i.rx_active then 0 else s.capturedPacketLength
  | CaptureState.CAPTURE =>
      if byte_received i then (s.capturedPacketLength + 1) % 65536
      else s.capturedPacketLength
  | _ => s.capturedPacketLength

/-- Next value of `packet_length`: loaded from `length_buffer.r_data` in
POP_LENGTH (line 177), decremented on each payload/discard step in
TRANSFER_PACKET (line 209) and CLEAR_OVERRUN (line 236). -/
def nextPacketLength (s : AnalyzerState) : Nat :=
  match s.pqState with
  | PQState.POP_LENGTH => s.lengthBuffer.headD 0 % 65536
  | PQState.TRANSFER_PACKET =>
      if s.packetTransferred ≠ 0 ∧ s.packetTransferred ≠ 1 ∧ s.packetLength ≠ 0
      then (s.packetLength - 1) % 65536 else s.packetLength
  | PQState.CLEAR_OVERRUN =>
      if s.packetTransferred ≠ 0 ∧ s.packetTransferred ≠ 1 ∧ s.packetLength ≠ 0
      then (s.packetLength - 1) % 65536 else s.packetLength
  | _ => s.packetLength

/-- Next value of `packet_transferred`: zeroed in INSPECT_PACKET
(line 183), incremented unconditionally in TRANSFER_PACKET (line 213) and
on the two sentinel steps of CLEAR_OVERRUN (line 232), 17-bit wrap. -/
def nextPT (s : AnalyzerState) : Nat :=
  match s.pqState with
  | PQState.INSPECT_PACKET => 0
  | PQState.TRANSFER_PACKET => (s.packetTransferred + 1) % 131072
  | PQState.CLEAR_OVERRUN =>
      if s.packetTransferred = 0 ∨ s.packetTransferred = 1
      then (s.packetTransferred + 1) % 131072 else s.packetTransferred
  | _ => s.packetTransferred

/-- Next value of the sticky `overrun` register: driven to 1 in the
OVERRUN state (line 218), otherwise holds. -/
def nextOverrun (s : AnalyzerState) : Bool :=
  if s.pqState = PQState.OVERRUN then true else s.overrun

/-- Next contents of the output ring buffer: read by the consumer
(`data_buffer.r_en = stream.ready`, line 116), written by the
`packet_queue` FSM; the 8-bit write port truncates the data. -/
def nextDataBuffer (s : AnalyzerState) (i : AnalyzerInput) : List Nat :=
  match dataBufferWrite s with
  | some d => fifoStep s.memSize s.dataBuffer i.stream_ready true (d % 256)
  | none => fifoStep s.memSize s.dataBuffer i.stream_ready false 0

/-- Next contents of the staging buffer: written by the capture FSM with
the truncated `rx_data`, read by the `packet_queue` FSM. -/
def nextPacketBuffer (s : AnalyzerState) (i : AnalyzerInput) : List Nat :=
  fifoStep MAX_PACKET_SIZE_BYTES s.packetBuffer (packetBufferREn s)
    (packetBufferWEn s i) (i.rx_data % 256)

/-- Next contents of the pending-lengths queue: written by the capture FSM
with the truncated `captured_packet_length`, read in POP_LENGTH. -/
def nextLengthBuffer (s : AnalyzerState) (i : AnalyzerInput) : List Nat :=
  fifoStep LENGTH_FIFO_DEPTH s.lengthBuffer (lengthBufferREn s)
    (lengthBufferWEn s i) (s.capturedPacketLength % 65536)

/-- One clock tick of the whole analyzer. -/
def step (s : AnalyzerState) (i : AnalyzerInput) : AnalyzerState :=
  ⟨s.memSize, nextCaptureState s i, nextPQState s, nextCPL s i,
    nextPacketLength s, nextPT s, nextOverrun s,
    nextDataBuffer s i, nextPacketBuffer s i, nextLengthBuffer s i⟩

/-- Run the analyzer over a list of per-tick inputs. -/
def steps (s : AnalyzerState) : List AnalyzerInput → AnalyzerState
  | [] => s
  | i :: rest => steps (step s i) rest

/-- Reset state: both FSMs in their first state, all registers zero, all
FIFOs empty, for a configured `mem_depth` of `d`. -/
def initState (d : Nat) : AnalyzerState :=
  ⟨d, CaptureState.START, PQState.IDLE, 0, 0, 0, false, [], [], []⟩

/-- A state is reachable when some input trace leads to it from reset
(for some configured depth). -/
def Reachable (s : AnalyzerState) : Prop :=
  ∃ d ins, s = steps (initState d) ins

/-- A tick with the receive channel inactive and the consumer not reading:
the environment is quiescent and only the `packet_queue` FSM makes
progress. -/
def quiet : AnalyzerInput :=
  ⟨false, false, 0, false, false⟩

/-- The `__init__` guard (lines 69-70): a `ValueError` is raised exactly
when `mem_depth % 2 != 0`. -/
def memDepthRejected (mem_depth : Nat) : Bool :=
  mem_depth % 2 != 0

/-- The byte record the spec assigns to a payload `p`: length high byte,
length low byte, then the payload. -/
def record (p : List Nat) : List Nat :=
  (p.length / 256 % 256) :: (p.length % 256) :: p

theorem steps_nil (s : AnalyzerState) : steps s [] = s := rfl

theorem steps_cons (s : AnalyzerState) (i : AnalyzerInput) (ins : List AnalyzerInput) :
    steps s (i :: ins) = steps (step s i) ins := rfl

theorem steps_append (s : AnalyzerState) (a b : List AnalyzerInput) :
    steps s (a ++ b) = steps (steps s a) b := by
  induction a generalizing s with
  | nil => rfl
  | cons i rest ih => simp [steps_cons, ih]

theorem step_memSize (s : AnalyzerState) (i : AnalyzerInput) :
    (step s i).memSize = s.memSize := rfl

theorem step_captureState (s : AnalyzerState) (i : AnalyzerInput) :
    (step s i).captureState = nextCaptureState s i := rfl

theorem step_pqState (s : AnalyzerState) (i : AnalyzerInput) :
    (step s i).pqState = nextPQState s := rfl

theorem step_cpl (s : AnalyzerState) (i : AnalyzerInput) :
    (step s i).capturedPacketLength = nextCPL s i := rfl

theorem step_packetLength (s : AnalyzerState) (i : AnalyzerInput) :
    (step s i).packetLength = nextPacketLength s := rfl

theorem step_pt (s : AnalyzerState) (i : AnalyzerInput) :
    (step s i).packetTransferred = nextPT s := rfl

theorem step_overrun (s : AnalyzerState) (i : AnalyzerInput) :
    (step s i).overrun = nextOverrun s := rfl

theorem step_dataBuffer (s : AnalyzerState) (i : AnalyzerInput) :
    (step s i).dataBuffer = nextDataBuffer s i := rfl

theorem step_packetBuffer (s : AnalyzerState) (i : AnalyzerInput) :
    (step s i).packetBuffer = nextPacketBuffer s i := rfl

theorem step_lengthBuffer (s : AnalyzerState) (i : AnalyzerInput) :
    (step s i).lengthBuffer = nextLengthBuffer s i := rfl

theorem fifoStep_idle (cap : Nat) (q : List Nat) (d : Nat) :
    fifoStep cap q false false d = q := by
  simp [fifoStep]

theorem fifoStep_write (cap : Nat) (q : List Nat) (d : Nat) (h : q.length < cap) :
    fifoStep cap q false true d = q ++ [d] := by
  simp [fifoStep, h]

theorem fifoStep_read (cap : Nat) (q : List Nat) (d : Nat) :
    fifoStep cap q true false d = q.tail := by
  simp [fifoStep]

theorem fifoStep_write_full (cap : Nat) (q : List Nat) (d : Nat)
    (h : ¬ q.length < cap) : fifoStep cap q false true d = q := by
  unfold fifoStep
  rw [if_neg (fun hx => h hx.2), if_neg Bool.false_ne_true]

/-- Under a quiescent input and with the capture FSM outside CAPTURE, the
capture FSM falls to START. -/
theorem quiet_captureState (s : AnalyzerState)
    (h : s.captureState ≠ CaptureState.CAPTURE) :
    (step s quiet).captureState = CaptureState.START := by
  rw [step_captureState]
  cases hc : s.captureState <;> simp_all [nextCaptureState, quiet]

/-- Under any input, outside CAPTURE the capture FSM neither bumps the
in-flight counter under a quiescent input nor writes the staging or
length FIFOs. -/
theorem quiet_cpl (s : AnalyzerState) (h : s.captureState ≠ CaptureState.CAPTURE) :
    (step s quiet).capturedPacketLength = s.capturedPacketLength := by
  rw [step_cpl]
  cases hc : s.captureState <;> simp_all [nextCPL, quiet]

theorem quiet_packetBuffer (s : AnalyzerState) :
    (step s quiet).packetBuffer =
      (if packetBufferREn s = true then s.packetBuffer.tail else s.packetBuffer) := by
  rw [step_packetBuffer]
  unfold nextPacketBuffer
  have hw : packetBufferWEn s quiet = false := by
    simp [packetBufferWEn, byte_received, quiet]
  rw [hw]
  cases hr : packetBufferREn s <;> simp [fifoStep]

theorem quiet_lengthBuffer (s : AnalyzerState)
    (hcap : s.captureState ≠ CaptureState.CAPTURE)
    (hpq : s.pqState ≠ PQState.POP_LENGTH) :
    (step s quiet).lengthBuffer = s.lengthBuffer := by
  rw [step_lengthBuffer]
  unfold nextLengthBuffer
  have hw : lengthBufferWEn s quiet = false := by
    simp [lengthBufferWEn, quiet, hcap]
  have hr : lengthBufferREn s = false := by
    simp [lengthBufferREn, hpq]
  rw [hw, hr, fifoStep_idle]

theorem quiet_overrun (s : AnalyzerState) (h : s.pqState ≠ PQState.OVERRUN) :
    (step s quiet).overrun = s.overrun := by
  rw [step_overrun]
  simp [nextOverrun, h]

/-- C5-supporting step fact: the overrun register never falls. -/
theorem overrun_monotone (s : AnalyzerState) (i : AnalyzerInput)
    (h : s.overrun = true) : (step s i).overrun = true := by
  rw [step_overrun]
  unfold nextOverrun
  split
  · rfl
  · exact h

/-- C5: once the overrun flag is true, no sequence of steps of the core
clears it; only starting over from a fresh state (external reset) does. -/
theorem c5_overrun_sticky (s : AnalyzerState) (ins : List AnalyzerInput)
    (h : s.overrun = true) : (steps s ins).overrun = true := by
  induction ins generalizing s with
  | nil => exact h
  | cons i rest ih =>
      rw [steps_cons]
      exact ih _ (overrun_monotone s i h)

/-- Witness for C5 at a concrete overrun state and a concrete two-tick trace. -/
theorem c5_overrun_sticky_witness :
    (steps ⟨8, CaptureState.IDLE, PQState.IDLE, 0, 0, 0, true, [1], [], []⟩
      [⟨true, true, 7, true, true⟩, quiet]).overrun = true :=
  c5_overrun_sticky _ _ rfl

/-- C9: `idle` and `capturing` are never both true; `idle` holds exactly in
the capture FSM's IDLE state (so not in START) and `capturing` exactly in
CAPTURE. -/
theorem c9_status_exclusive (s : AnalyzerState) :
    (¬(idleOut s = true ∧ capturingOut s = true)) ∧
    (idleOut s = true ↔ s.captureState = CaptureState.IDLE) ∧
    (capturingOut s = true ↔ s.captureState = CaptureState.CAPTURE) ∧
    (s.captureState = CaptureState.START → idleOut s = false) := by
  cases h : s.captureState <;> simp [idleOut, capturingOut, h]

/-- C10: the capture FSM never writes the output ring buffer and never
touches the overrun latch: the latch changes only from the OVERRUN state,
an FSM-driven output write implies TRANSFER_PACKET or CLEAR_OVERRUN, and
in every other engine state the output buffer changes only by the
consumer's read. -/
theorem c10_frame_effect (s : AnalyzerState) (i : AnalyzerInput) :
    (s.pqState ≠ PQState.OVERRUN → (step s i).overrun = s.overrun) ∧
    (dataBufferWrite s ≠ none →
      s.pqState = PQState.TRANSFER_PACKET ∨ s.pqState = PQState.CLEAR_OVERRUN) ∧
    (s.pqState ≠ PQState.TRANSFER_PACKET → s.pqState ≠ PQState.CLEAR_OVERRUN →
      (step s i).dataBuffer = if i.stream_ready = true then s.dataBuffer.tail
        else s.dataBuffer) := by
  refine ⟨?_, ?_, ?_⟩
  · intro h
    rw [step_overrun]
    simp [nextOverrun, h]
  · intro h
    cases hq : s.pqState <;> simp_all [dataBufferWrite]
  · intro h1 h2
    rw [step_dataBuffer]
    have hw : dataBufferWrite s = none := by
      cases hq : s.pqState <;> simp_all [dataBufferWrite]
    rw [nextDataBuffer, hw]
    cases hr : i.stream_ready <;> simp [fifoStep]

/-- Witness for C10: concrete engine-idle state (only the consumer pop
moves the output buffer) and a concrete CLEAR_OVERRUN state (where the FSM
does drive a write). -/
theorem c10_frame_effect_witness :
    ((step ⟨8, CaptureState.IDLE, PQState.IDLE, 0, 0, 0, false, [5, 6], [], []⟩
        ⟨true, true, 7, true, true⟩).overrun = false) ∧
    ((step ⟨8, CaptureState.IDLE, PQState.IDLE, 0, 0, 0, false, [5, 6], [], []⟩
        ⟨true, true, 7, true, true⟩).dataBuffer = [6]) ∧
    (PQState.CLEAR_OVERRUN = PQState.TRANSFER_PACKET ∨
      PQState.CLEAR_OVERRUN = PQState.CLEAR_OVERRUN) := by
  refine ⟨?_, ?_, ?_⟩
  · exact (c10_frame_effect ⟨8, CaptureState.IDLE, PQState.IDLE, 0, 0, 0, false,
      [5, 6], [], []⟩ ⟨true, true, 7, true, true⟩).1 (by decide)
  · have h := (c10_frame_effect ⟨8, CaptureState.IDLE, PQState.IDLE, 0, 0, 0, false,
      [5, 6], [], []⟩ ⟨true, true, 7, true, true⟩).2.2 (by decide) (by decide)
    simpa using h
  · exact (c10_frame_effect ⟨8, CaptureState.IDLE, PQState.CLEAR_OVERRUN, 0, 3, 0,
      true, [], [1, 2, 3], []⟩ quiet).2.1 (by decide)

/-- C6 (code side): the `__init__` guard only tests evenness, so the
non-power-of-two depths 6 and 12 are accepted (no `ValueError`), although
no power of two equals 6 or 12; the odd value 5 is rejected. -/
theorem c6_guard_evenness_only :
    memDepthRejected 6 = false ∧ memDepthRejected 12 = false ∧
    memDepthRejected 5 = true ∧
    (∀ k : Nat, 2 ^ k ≠ 6) ∧ (∀ k : Nat, 2 ^ k ≠ 12) := by
  refine ⟨rfl, rfl, rfl, ?_, ?_⟩ <;>
  · intro k
    match k with
    | 0 => decide
    | 1 => decide
    | 2 => decide
    | 3 => decide
    | (n + 4) =>
      intro h
      have h1 : 1 ≤ 2 ^ n := Nat.one_le_pow n 2 (by omega)
      rw [pow_add] at h
      omega

/-- Payload phase of TRANSFER_PACKET under a quiescent environment: with
`packet_transferred` past the two header steps and `packet_length = |p|`,
the engine moves the bytes of `p` one per tick from the staging buffer to
the output ring buffer, in order. -/
theorem transfer_payload_run (p : List Nat) :
    ∀ (s : AnalyzerState) (rest : List Nat) (t : Nat),
    s.captureState ≠ CaptureState.CAPTURE →
    s.pqState = PQState.TRANSFER_PACKET →
    s.packetTransferred = t → 2 ≤ t → t + p.length < 131072 →
    s.packetLength = p.length → p.length < 65536 →
    s.packetBuffer = p ++ rest →
    s.dataBuffer.length + p.length ≤ s.memSize →
    (∀ x ∈ p, x < 256) →
    (steps s (List.replicate p.length quiet)).captureState ≠ CaptureState.CAPTURE ∧
    (steps s (List.replicate p.length quiet)).pqState = PQState.TRANSFER_PACKET ∧
    (steps s (List.replicate p.length quiet)).packetTransferred = t + p.length ∧
    (steps s (List.replicate p.length quiet)).packetLength = 0 ∧
    (steps s (List.replicate p.length quiet)).packetBuffer = rest ∧
    (steps s (List.replicate p.length quiet)).dataBuffer = s.dataBuffer ++ p ∧
    (steps s (List.replicate p.length quiet)).lengthBuffer = s.lengthBuffer ∧
    (steps s (List.replicate p.length quiet)).overrun = s.overrun ∧
    (steps s (List.replicate p.length quiet)).memSize = s.memSize ∧
    (steps s (List.replicate p.length quiet)).capturedPacketLength =
      s.capturedPacketLength := by
  induction p with
  | nil =>
      intro s rest t hcap hpq hpt ht2 htn hlen hsmall hpb hroom hbytes
      exact ⟨hcap, hpq, hpt, hlen, hpb, (List.append_nil _).symm, rfl, rfl, rfl, rfl⟩
  | cons a q ih =>
      intro s rest t hcap hpq hpt ht2 htn hlen hsmall hpb hroom hbytes
      simp only [List.length_cons] at htn hlen hsmall hroom ⊢
      have ht0 : s.packetTransferred ≠ 0 := by omega
      have ht1 : s.packetTransferred ≠ 1 := by omega
      have hl0 : s.packetLength ≠ 0 := by omega
      have hS : (step s quiet).captureState = CaptureState.START :=
        quiet_captureState s hcap
      have hQ : (step s quiet).pqState = PQState.TRANSFER_PACKET := by
        rw [step_pqState]
        simp [nextPQState, hpq, hl0]
      have hT : (step s quiet).packetTransferred = t + 1 := by
        rw [step_pt]
        simp only [nextPT, hpq]
        rw [hpt]
        omega
      have hL : (step s quiet).packetLength = q.length := by
        rw [step_packetLength]
        simp only [nextPacketLength, hpq]
        rw [if_pos ⟨ht0, ht1, hl0⟩, hlen]
        simp only [Nat.add_sub_cancel]
        exact Nat.mod_eq_of_lt (by omega)
      have hren : packetBufferREn s = true := by
        simp [packetBufferREn, hpq, ht0, ht1, hl0]
      have hPB : (step s quiet).packetBuffer = q ++ rest := by
        rw [quiet_packetBuffer, hren, if_pos rfl, hpb]
        rfl
      have hDB : (step s quiet).dataBuffer = s.dataBuffer ++ [a] := by
        rw [step_dataBuffer]
        have hw : dataBufferWrite s = some a := by
          simp only [dataBufferWrite, hpq]
          rw [if_neg ht0, if_neg ht1, if_pos hl0, hpb]
          rfl
        unfold nextDataBuffer
        rw [hw]
        show fifoStep s.memSize s.dataBuffer false true (a % 256) = s.dataBuffer ++ [a]
        have hmod : a % 256 = a := Nat.mod_eq_of_lt (hbytes a (by simp))
        rw [hmod]
        exact fifoStep_write _ _ _ (by omega)
      have hLB : (step s quiet).lengthBuffer = s.lengthBuffer :=
        quiet_lengthBuffer s hcap (by rw [hpq]; simp)
      have hOV : (step s quiet).overrun = s.overrun :=
        quiet_overrun s (by rw [hpq]; simp)
      have hM : (step s quiet).memSize = s.memSize := rfl
      have hC : (step s quiet).capturedPacketLength = s.capturedPacketLength :=
        quiet_cpl s hcap
      rw [List.replicate_succ, steps_cons]
      have ihx := ih (step s quiet) rest (t + 1)
        (by rw [hS]; simp) hQ hT (by omega)
        (by omega) hL
        (by omega) hPB
        (by rw [hDB, hM]; simp; omega)
        (fun x hx => hbytes x (by simp [hx]))
      refine ⟨ihx.1, ihx.2.1, by rw [ihx.2.2.1]; omega, ihx.2.2.2.1,
        ihx.2.2.2.2.1, ?_, ?_, ?_, ?_, ?_⟩
      · rw [ihx.2.2.2.2.2.1, hDB]
        simp
      · rw [ihx.2.2.2.2.2.2.1, hLB]
      · rw [ihx.2.2.2.2.2.2.2.1, hOV]
      · rw [ihx.2.2.2.2.2.2.2.2.1, hM]
      · rw [ihx.2.2.2.2.2.2.2.2.2, hC]

/-- One header tick of TRANSFER_PACKET (progress step 0 or 1): the high or
low length byte is appended to the output ring buffer and nothing else
moves. -/
theorem transfer_header_step (s : AnalyzerState) (v : Nat)
    (hcap : s.captureState ≠ CaptureState.CAPTURE)
    (hpq : s.pqState = PQState.TRANSFER_PACKET)
    (hpt : (s.packetTransferred = 0 ∧ v = s.packetLength / 256 % 256) ∨
           (s.packetTransferred = 1 ∧ v = s.packetLength % 256))
    (hroom : s.dataBuffer.length < s.memSize) :
    (step s quiet).captureState = CaptureState.START ∧
    (step s quiet).pqState = PQState.TRANSFER_PACKET ∧
    (step s quiet).packetTransferred = s.packetTransferred + 1 ∧
    (step s quiet).packetLength = s.packetLength ∧
    (step s quiet).packetBuffer = s.packetBuffer ∧
    (step s quiet).dataBuffer = s.dataBuffer ++ [v] ∧
    (step s quiet).lengthBuffer = s.lengthBuffer ∧
    (step s quiet).overrun = s.overrun ∧
    (step s quiet).memSize = s.memSize ∧
    (step s quiet).capturedPacketLength = s.capturedPacketLength := by
  have hpt01 : s.packetTransferred = 0 ∨ s.packetTransferred = 1 := by
    rcases hpt with ⟨h, _⟩ | ⟨h, _⟩
    · exact Or.inl h
    · exact Or.inr h
  refine ⟨quiet_captureState s hcap, ?_, ?_, ?_, ?_, ?_, ?_, ?_, rfl, quiet_cpl s hcap⟩
  · rw [step_pqState]
    simp only [nextPQState, hpq]
    rcases hpt01 with h | h <;> simp [h]
  · rw [step_pt]
    simp only [nextPT, hpq]
    rcases hpt01 with h | h <;> rw [h]
  · rw [step_packetLength]
    simp only [nextPacketLength, hpq]
    rcases hpt01 with h | h <;> simp [h]
  · rw [quiet_packetBuffer]
    have hren : packetBufferREn s = false := by
      rcases hpt01 with h | h <;> simp [packetBufferREn, hpq, h]
    rw [hren]
    simp
  · rw [step_dataBuffer]
    have hw : dataBufferWrite s = some v := by
      simp only [dataBufferWrite, hpq]
      rcases hpt with ⟨h, hv⟩ | ⟨h, hv⟩
      · rw [if_pos h, hv]
      · rw [if_neg (by omega), if_pos h, hv]
    unfold nextDataBuffer
    rw [hw]
    show fifoStep s.memSize s.dataBuffer false true (v % 256) = s.dataBuffer ++ [v]
    have hv256 : v % 256 = v := by
      rcases hpt with ⟨_, hv⟩ | ⟨_, hv⟩ <;> rw [hv] <;> omega
    rw [hv256]
    exact fifoStep_write _ _ _ hroom
  · exact quiet_lengthBuffer s hcap (by rw [hpq]; simp)
  · exact quiet_overrun s (by rw [hpq]; simp)

/-- The exit tick of TRANSFER_PACKET / CLEAR_OVERRUN: once the remaining
length is zero and the two header/sentinel steps are past, the engine
returns to IDLE without touching any buffer. -/
theorem engine_exit_step (s : AnalyzerState)
    (hcap : s.captureState ≠ CaptureState.CAPTURE)
    (hpq : s.pqState = PQState.TRANSFER_PACKET ∨ s.pqState = PQState.CLEAR_OVERRUN)
    (ht0 : s.packetTransferred ≠ 0) (ht1 : s.packetTransferred ≠ 1)
    (hlen : s.packetLength = 0) :
    (step s quiet).captureState = CaptureState.START ∧
    (step s quiet).pqState = PQState.IDLE ∧
    (step s quiet).packetLength = 0 ∧
    (step s quiet).packetBuffer = s.packetBuffer ∧
    (step s quiet).dataBuffer = s.dataBuffer ∧
    (step s quiet).lengthBuffer = s.lengthBuffer ∧
    (step s quiet).overrun = s.overrun ∧
    (step s quiet).memSize = s.memSize ∧
    (step s quiet).capturedPacketLength = s.capturedPacketLength := by
  refine ⟨quiet_captureState s hcap, ?_, ?_, ?_, ?_, ?_, ?_, rfl, quiet_cpl s hcap⟩
  · rw [step_pqState]
    rcases hpq with h | h <;> simp [nextPQState, h, ht0, ht1, hlen]
  · rw [step_packetLength]
    rcases hpq with h | h <;> simp [nextPacketLength, h, hlen]
  · rw [quiet_packetBuffer]
    have hren : packetBufferREn s = false := by
      rcases hpq with h | h <;> simp [packetBufferREn, h, hlen]
    rw [hren]
    simp
  · rw [step_dataBuffer]
    have hw : dataBufferWrite s = none := by
      rcases hpq with h | h
      · simp [dataBufferWrite, h, ht0, ht1, hlen]
      · simp [dataBufferWrite, h, ht0, ht1]
    unfold nextDataBuffer
    rw [hw]
    show fifoStep s.memSize s.dataBuffer false false 0 = s.dataBuffer
    exact fifoStep_idle _ _ _
  · exact quiet_lengthBuffer s hcap
      (by rcases hpq with h | h <;> rw [h] <;> simp)
  · exact quiet_overrun s (by rcases hpq with h | h <;> rw [h] <;> simp)

/-- Whole TRANSFER_PACKET phase under a quiescent environment: starting at
progress step 0 with working length `|p|` and the bytes of `p` at the head
of the staging buffer, after `|p| + 3` ticks the engine is back in IDLE,
having appended exactly `length_hi, length_lo, payload` to the output ring
buffer and consumed exactly `p` from the staging buffer. -/
theorem transfer_record_run (s : AnalyzerState) (p rest : List Nat)
    (hcap : s.captureState ≠ CaptureState.CAPTURE)
    (hpq : s.pqState = PQState.TRANSFER_PACKET)
    (hpt : s.packetTransferred = 0)
    (hlen : s.packetLength = p.length) (hsmall : p.length < 65536)
    (hpb : s.packetBuffer = p ++ rest)
    (hroom : s.dataBuffer.length + p.length + 2 ≤ s.memSize)
    (hbytes : ∀ x ∈ p, x < 256) :
    (steps s (List.replicate (p.length + 3) quiet)).captureState ≠
      CaptureState.CAPTURE ∧
    (steps s (List.replicate (p.length + 3) quiet)).pqState = PQState.IDLE ∧
    (steps s (List.replicate (p.length + 3) quiet)).packetLength = 0 ∧
    (steps s (List.replicate (p.length + 3) quiet)).packetBuffer = rest ∧
    (steps s (List.replicate (p.length + 3) quiet)).dataBuffer =
      s.dataBuffer ++ record p ∧
    (steps s (List.replicate (p.length + 3) quiet)).lengthBuffer =
      s.lengthBuffer ∧
    (steps s (List.replicate (p.length + 3) quiet)).overrun = s.overrun ∧
    (steps s (List.replicate (p.length + 3) quiet)).memSize = s.memSize ∧
    (steps s (List.replicate (p.length + 3) quiet)).capturedPacketLength =
      s.capturedPacketLength := by
  have hsplit : List.replicate (p.length + 3) quiet =
      [quiet, quiet] ++ List.replicate p.length quiet ++ [quiet] := by
    have h3 : p.length + 3 = 2 + p.length + 1 := by omega
    rw [h3, List.replicate_add, List.replicate_add]
    rfl
  rw [hsplit, steps_append, steps_append]
  have h1 := transfer_header_step s (p.length / 256 % 256) hcap hpq
    (Or.inl ⟨hpt, by rw [hlen]⟩) (by omega)
  obtain ⟨a1, a2, a3, a4, a5, a6, a7, a8, a9, a10⟩ := h1
  have h2 := transfer_header_step (step s quiet) (p.length % 256)
    (by rw [a1]; simp) a2
    (Or.inr ⟨by rw [a3, hpt], by rw [a4, hlen]⟩)
    (by rw [a6, a9]; simp; omega)
  obtain ⟨b1, b2, b3, b4, b5, b6, b7, b8, b9, b10⟩ := h2
  have hs2 : steps s [quiet, quiet] = step (step s quiet) quiet := rfl
  rw [hs2]
  have h3 := transfer_payload_run p (step (step s quiet) quiet) rest 2
    (by rw [b1]; simp) b2 (by rw [b3, a3, hpt]) (by omega) (by omega)
    (by rw [b4, a4, hlen]) hsmall (by rw [b5, a5, hpb])
    (by rw [b6, a6, b9, a9]; simp; omega) hbytes
  obtain ⟨c1, c2, c3, c4, c5, c6, c7, c8, c9, c10⟩ := h3
  have hexit := engine_exit_step _ c1 (Or.inl c2) (by omega) (by omega) c4
  obtain ⟨d1, d2, d3, d4, d5, d6, d7, d8, d9⟩ := hexit
  have hlast : steps (steps (step (step s quiet) quiet)
      (List.replicate p.length quiet)) [quiet] =
      step (steps (step (step s quiet) quiet) (List.replicate p.length quiet))
        quiet := rfl
  rw [hlast]
  refine ⟨by rw [d1]; simp, d2, d3, ?_, ?_, ?_, ?_, ?_, ?_⟩
  · rw [d4, c5]
  · rw [d5, c6, b6, a6]
    simp [record]
  · rw [d6, c7, b7, a7]
  · rw [d7, c8, b8, a8]
  · rw [d8, c9, b9, a9]
  · rw [d9, c10, b10, a10]

/-- Frame for quiescent ticks in which the engine drives no FIFO port:
all three buffers hold. -/
theorem quiet_buffers_frame (s : AnalyzerState)
    (hcap : s.captureState ≠ CaptureState.CAPTURE)
    (hw : dataBufferWrite s = none)
    (hr : packetBufferREn s = false)
    (hl : s.pqState ≠ PQState.POP_LENGTH) :
    (step s quiet).dataBuffer = s.dataBuffer ∧
    (step s quiet).packetBuffer = s.packetBuffer ∧
    (step s quiet).lengthBuffer = s.lengthBuffer := by
  refine ⟨?_, ?_, quiet_lengthBuffer s hcap hl⟩
  · rw [step_dataBuffer]
    unfold nextDataBuffer
    rw [hw]
    show fifoStep s.memSize s.dataBuffer false false 0 = s.dataBuffer
    exact fifoStep_idle _ _ _
  · rw [quiet_packetBuffer, hr]
    simp

/-- Engine IDLE tick with a pending length available: move to POP_LENGTH,
everything else holds. -/
theorem engine_idle_step (s : AnalyzerState) (x : Nat) (ls : List Nat)
    (hcap : s.captureState ≠ CaptureState.CAPTURE)
    (hpq : s.pqState = PQState.IDLE)
    (hlb : s.lengthBuffer = x :: ls) :
    (step s quiet).captureState = CaptureState.START ∧
    (step s quiet).pqState = PQState.POP_LENGTH ∧
    (step s quiet).packetTransferred = s.packetTransferred ∧
    (step s quiet).packetLength = s.packetLength ∧
    (step s quiet).packetBuffer = s.packetBuffer ∧
    (step s quiet).dataBuffer = s.dataBuffer ∧
    (step s quiet).lengthBuffer = s.lengthBuffer ∧
    (step s quiet).overrun = s.overrun ∧
    (step s quiet).memSize = s.memSize ∧
    (step s quiet).capturedPacketLength = s.capturedPacketLength := by
  have hfr := quiet_buffers_frame s hcap (by simp [dataBufferWrite, hpq])
    (by simp [packetBufferREn, hpq]) (by rw [hpq]; simp)
  refine ⟨quiet_captureState s hcap, ?_, ?_, ?_, hfr.2.1, hfr.1, hfr.2.2, ?_, rfl,
    quiet_cpl s hcap⟩
  · rw [step_pqState]
    simp [nextPQState, hpq, hlb]
  · rw [step_pt]
    simp [nextPT, hpq]
  · rw [step_packetLength]
    simp [nextPacketLength, hpq]
  · exact quiet_overrun s (by rw [hpq]; simp)

/-- POP_LENGTH tick: latch the head of the pending-lengths queue into
`packet_length` (16-bit truncated) and pop it; move to INSPECT_PACKET. -/
theorem engine_pop_step (s : AnalyzerState) (x : Nat) (ls : List Nat)
    (hcap : s.captureState ≠ CaptureState.CAPTURE)
    (hpq : s.pqState = PQState.POP_LENGTH)
    (hlb : s.lengthBuffer = x :: ls) :
    (step s quiet).captureState = CaptureState.START ∧
    (step s quiet).pqState = PQState.INSPECT_PACKET ∧
    (step s quiet).packetTransferred = s.packetTransferred ∧
    (step s quiet).packetLength = x % 65536 ∧
    (step s quiet).packetBuffer = s.packetBuffer ∧
    (step s quiet).dataBuffer = s.dataBuffer ∧
    (step s quiet).lengthBuffer = ls ∧
    (step s quiet).overrun = s.overrun ∧
    (step s quiet).memSize = s.memSize ∧
    (step s quiet).capturedPacketLength = s.capturedPacketLength := by
  refine ⟨quiet_captureState s hcap, ?_, ?_, ?_, ?_, ?_, ?_, ?_, rfl,
    quiet_cpl s hcap⟩
  · rw [step_pqState]
    simp [nextPQState, hpq]
  · rw [step_pt]
    simp [nextPT, hpq]
  · rw [step_packetLength]
    simp [nextPacketLength, hpq, hlb]
  · rw [quiet_packetBuffer]
    have hr : packetBufferREn s = false := by simp [packetBufferREn, hpq]
    rw [hr]
    simp
  · rw [step_dataBuffer]
    unfold nextDataBuffer
    have hw : dataBufferWrite s = none := by simp [dataBufferWrite, hpq]
    rw [hw]
    show fifoStep s.memSize s.dataBuffer false false 0 = s.dataBuffer
    exact fifoStep_idle _ _ _
  · rw [step_lengthBuffer]
    unfold nextLengthBuffer
    have hwl : lengthBufferWEn s quiet = false := by
      simp [lengthBufferWEn, quiet, hcap]
    have hrl : lengthBufferREn s = true := by simp [lengthBufferREn, hpq]
    rw [hwl, hrl, fifoStep_read, hlb]
    rfl
  · exact quiet_overrun s (by rw [hpq]; simp)

/-- INSPECT_PACKET tick when the record fits: zero the progress counter
and move to TRANSFER_PACKET. -/
theorem engine_inspect_fit_step (s : AnalyzerState)
    (hcap : s.captureState ≠ CaptureState.CAPTURE)
    (hpq : s.pqState = PQState.INSPECT_PACKET)
    (hfit : s.dataBuffer.length + s.packetLength + 2 ≤ s.memSize) :
    (step s quiet).captureState = CaptureState.START ∧
    (step s quiet).pqState = PQState.TRANSFER_PACKET ∧
    (step s quiet).packetTransferred = 0 ∧
    (step s quiet).packetLength = s.packetLength ∧
    (step s quiet).packetBuffer = s.packetBuffer ∧
    (step s quiet).dataBuffer = s.dataBuffer ∧
    (step s quiet).lengthBuffer = s.lengthBuffer ∧
    (step s quiet).overrun = s.overrun ∧
    (step s quiet).memSize = s.memSize ∧
    (step s quiet).capturedPacketLength = s.capturedPacketLength := by
  have hfr := quiet_buffers_frame s hcap (by simp [dataBufferWrite, hpq])
    (by simp [packetBufferREn, hpq]) (by rw [hpq]; simp)
  refine ⟨quiet_captureState s hcap, ?_, ?_, ?_, hfr.2.1, hfr.1, hfr.2.2, ?_, rfl,
    quiet_cpl s hcap⟩
  · rw [step_pqState]
    simp only [nextPQState, hpq]
    rw [if_neg (by omega)]
  · rw [step_pt]
    simp [nextPT, hpq]
  · rw [step_packetLength]
    simp [nextPacketLength, hpq]
  · exact quiet_overrun s (by rw [hpq]; simp)

/-- INSPECT_PACKET tick when the record does not fit: zero the progress
counter and move to OVERRUN. -/
theorem engine_inspect_overflow_step (s : AnalyzerState)
    (hcap : s.captureState ≠ CaptureState.CAPTURE)
    (hpq : s.pqState = PQState.INSPECT_PACKET)
    (hbig : s.dataBuffer.length + s.packetLength + 2 > s.memSize) :
    (step s quiet).captureState = CaptureState.START ∧
    (step s quiet).pqState = PQState.OVERRUN ∧
    (step s quiet).packetTransferred = 0 ∧
    (step s quiet).packetLength = s.packetLength ∧
    (step s quiet).packetBuffer = s.packetBuffer ∧
    (step s quiet).dataBuffer = s.dataBuffer ∧
    (step s quiet).lengthBuffer = s.lengthBuffer ∧
    (step s quiet).overrun = s.overrun ∧
    (step s quiet).memSize = s.memSize ∧
    (step s quiet).capturedPacketLength = s.capturedPacketLength := by
  have hfr := quiet_buffers_frame s hcap (by simp [dataBufferWrite, hpq])
    (by simp [packetBufferREn, hpq]) (by rw [hpq]; simp)
  refine ⟨quiet_captureState s hcap, ?_, ?_, ?_, hfr.2.1, hfr.1, hfr.2.2, ?_, rfl,
    quiet_cpl s hcap⟩
  · rw [step_pqState]
    simp only [nextPQState, hpq]
    rw [if_pos hbig]
  · rw [step_pt]
    simp [nextPT, hpq]
  · rw [step_packetLength]
    simp [nextPacketLength, hpq]
  · exact quiet_overrun s (by rw [hpq]; simp)

/-- OVERRUN tick with room for the sentinel: latch the overrun flag and
move to CLEAR_OVERRUN; no FIFO moves. -/
theorem engine_overrun_step (s : AnalyzerState)
    (hcap : s.captureState ≠ CaptureState.CAPTURE)
    (hpq : s.pqState = PQState.OVERRUN)
    (hroom : s.dataBuffer.length + 2 ≤ s.memSize) :
    (step s quiet).captureState = CaptureState.START ∧
    (step s quiet).pqState = PQState.CLEAR_OVERRUN ∧
    (step s quiet).packetTransferred = s.packetTransferred ∧
    (step s quiet).packetLength = s.packetLength ∧
    (step s quiet).packetBuffer = s.packetBuffer ∧
    (step s quiet).dataBuffer = s.dataBuffer ∧
    (step s quiet).lengthBuffer = s.lengthBuffer ∧
    (step s quiet).overrun = true ∧
    (step s quiet).memSize = s.memSize ∧
    (step s quiet).capturedPacketLength = s.capturedPacketLength := by
  have hfr := quiet_buffers_frame s hcap (by simp [dataBufferWrite, hpq])
    (by simp [packetBufferREn, hpq]) (by rw [hpq]; simp)
  refine ⟨quiet_captureState s hcap, ?_, ?_, ?_, hfr.2.1, hfr.1, hfr.2.2, ?_, rfl,
    quiet_cpl s hcap⟩
  · rw [step_pqState]
    simp only [nextPQState, hpq]
    rw [if_pos hroom]
  · rw [step_pt]
    simp [nextPT, hpq]
  · rw [step_packetLength]
    simp [nextPacketLength, hpq]
  · rw [step_overrun]
    simp [nextOverrun, hpq]

/-- One sentinel tick of CLEAR_OVERRUN (progress step 0 or 1): append one
`0xff` byte to the output ring buffer. -/
theorem clear_sentinel_step (s : AnalyzerState)
    (hcap : s.captureState ≠ CaptureState.CAPTURE)
    (hpq : s.pqState = PQState.CLEAR_OVERRUN)
    (hpt : s.packetTransferred = 0 ∨ s.packetTransferred = 1)
    (hroom : s.dataBuffer.length < s.memSize) :
    (step s quiet).captureState = CaptureState.START ∧
    (step s quiet).pqState = PQState.CLEAR_OVERRUN ∧
    (step s quiet).packetTransferred = s.packetTransferred + 1 ∧
    (step s quiet).packetLength = s.packetLength ∧
    (step s quiet).packetBuffer = s.packetBuffer ∧
    (step s quiet).dataBuffer = s.dataBuffer ++ [0xff] ∧
    (step s quiet).lengthBuffer = s.lengthBuffer ∧
    (step s quiet).overrun = s.overrun ∧
    (step s quiet).memSize = s.memSize ∧
    (step s quiet).capturedPacketLength = s.capturedPacketLength := by
  refine ⟨quiet_captureState s hcap, ?_, ?_, ?_, ?_, ?_, ?_, ?_, rfl,
    quiet_cpl s hcap⟩
  · rw [step_pqState]
    simp only [nextPQState, hpq]
    rcases hpt with h | h <;> simp [h]
  · rw [step_pt]
    simp only [nextPT, hpq]
    rw [if_pos hpt]
    rcases hpt with h | h <;> rw [h]
  · rw [step_packetLength]
    simp only [nextPacketLength, hpq]
    rcases hpt with h | h <;> simp [h]
  · rw [quiet_packetBuffer]
    have hr : packetBufferREn s = false := by
      rcases hpt with h | h <;> simp [packetBufferREn, hpq, h]
    rw [hr]
    simp
  · rw [step_dataBuffer]
    unfold nextDataBuffer
    have hw : dataBufferWrite s = some 0xff := by
      simp [dataBufferWrite, hpq, hpt]
    rw [hw]
    show fifoStep s.memSize s.dataBuffer false true (0xff % 256) = _
    exact fifoStep_write _ _ _ hroom
  · exact quiet_lengthBuffer s hcap (by rw [hpq]; simp)
  · exact quiet_overrun s (by rw [hpq]; simp)

/-- Discard phase of CLEAR_OVERRUN: with the sentinel steps past, the
engine pops `packet_length` bytes from the staging buffer, one per tick,
forwarding none of them. -/
theorem clear_discard_run (p : List Nat) :
    ∀ (s : AnalyzerState) (rest : List Nat),
    s.captureState ≠ CaptureState.CAPTURE →
    s.pqState = PQState.CLEAR_OVERRUN →
    s.packetTransferred ≠ 0 → s.packetTransferred ≠ 1 →
    s.packetLength = p.length → p.length < 65536 →
    s.packetBuffer = p ++ rest →
    (steps s (List.replicate p.length quiet)).captureState ≠
      CaptureState.CAPTURE ∧
    (steps s (List.replicate p.length quiet)).pqState = PQState.CLEAR_OVERRUN ∧
    (steps s (List.replicate p.length quiet)).packetTransferred =
      s.packetTransferred ∧
    (steps s (List.replicate p.length quiet)).packetLength = 0 ∧
    (steps s (List.replicate p.length quiet)).packetBuffer = rest ∧
    (steps s (List.replicate p.length quiet)).dataBuffer = s.dataBuffer ∧
    (steps s (List.replicate p.length quiet)).lengthBuffer = s.lengthBuffer ∧
    (steps s (List.replicate p.length quiet)).overrun = s.overrun ∧
    (steps s (List.replicate p.length quiet)).memSize = s.memSize ∧
    (steps s (List.replicate p.length quiet)).capturedPacketLength =
      s.capturedPacketLength := by
  induction p with
  | nil =>
      intro s rest hcap hpq ht0 ht1 hlen hsmall hpb
      exact ⟨hcap, hpq, rfl, hlen, hpb, rfl, rfl, rfl, rfl, rfl⟩
  | cons a q ih =>
      intro s rest hcap hpq ht0 ht1 hlen hsmall hpb
      simp only [List.length_cons] at hlen hsmall ⊢
      have hl0 : s.packetLength ≠ 0 := by omega
      have hS : (step s quiet).captureState = CaptureState.START :=
        quiet_captureState s hcap
      have hQ : (step s quiet).pqState = PQState.CLEAR_OVERRUN := by
        rw [step_pqState]
        simp [nextPQState, hpq, hl0]
      have hT : (step s quiet).packetTransferred = s.packetTransferred := by
        rw [step_pt]
        simp only [nextPT, hpq]
        rw [if_neg (by tauto)]
      have hL : (step s quiet).packetLength = q.length := by
        rw [step_packetLength]
        simp only [nextPacketLength, hpq]
        rw [if_pos ⟨ht0, ht1, hl0⟩, hlen]
        simp only [Nat.add_sub_cancel]
        exact Nat.mod_eq_of_lt (by omega)
      have hren : packetBufferREn s = true := by
        simp [packetBufferREn, hpq, ht0, ht1, hl0]
      have hPB : (step s quiet).packetBuffer = q ++ rest := by
        rw [quiet_packetBuffer, hren, if_pos rfl, hpb]
        rfl
      have hDB : (step s quiet).dataBuffer = s.dataBuffer := by
        rw [step_dataBuffer]
        unfold nextDataBuffer
        have hw : dataBufferWrite s = none := by
          simp only [dataBufferWrite, hpq]
          rw [if_neg (by tauto)]
        rw [hw]
        show fifoStep s.memSize s.dataBuffer false false 0 = s.dataBuffer
        exact fifoStep_idle _ _ _
      have hLB : (step s quiet).lengthBuffer = s.lengthBuffer :=
        quiet_lengthBuffer s hcap (by rw [hpq]; simp)
      have hOV : (step s quiet).overrun = s.overrun :=
        quiet_overrun s (by rw [hpq]; simp)
      have hC : (step s quiet).capturedPacketLength = s.capturedPacketLength :=
        quiet_cpl s hcap
      rw [List.replicate_succ, steps_cons]
      have ihx := ih (step s quiet) rest (by rw [hS]; simp) hQ
        (by rw [hT]; exact ht0) (by rw [hT]; exact ht1) hL (by omega) hPB
      refine ⟨ihx.1, ihx.2.1, ?_, ihx.2.2.2.1, ihx.2.2.2.2.1, ?_, ?_, ?_, ?_, ?_⟩
      · rw [ihx.2.2.1, hT]
      · rw [ihx.2.2.2.2.2.1, hDB]
      · rw [ihx.2.2.2.2.2.2.1, hLB]
      · rw [ihx.2.2.2.2.2.2.2.1, hOV]
      · rw [ihx.2.2.2.2.2.2.2.2.1]
        rfl
      · rw [ihx.2.2.2.2.2.2.2.2.2, hC]

/-- C2: when a queued record of payload `p` is inspected while
`output_level + |p| + 2 > mem_depth` (and there is room for the two-byte
sentinel), the engine writes exactly `0xFF, 0xFF` to the output ring
buffer in place of the record, latches the overrun flag, and pops exactly
`|p|` bytes of the record's payload out of the staging buffer without
forwarding them, leaving the rest of the staging buffer (the following
records) intact. -/
theorem c2_overrun_sentinel (s : AnalyzerState) (p rest : List Nat)
    (hcap : s.captureState ≠ CaptureState.CAPTURE)
    (hpq : s.pqState = PQState.INSPECT_PACKET)
    (hlen : s.packetLength = p.length) (hsmall : p.length < 65536)
    (hpb : s.packetBuffer = p ++ rest)
    (hbig : s.dataBuffer.length + p.length + 2 > s.memSize)
    (hroom : s.dataBuffer.length + 2 ≤ s.memSize) :
    (steps s (List.replicate (p.length + 5) quiet)).pqState = PQState.IDLE ∧
    (steps s (List.replicate (p.length + 5) quiet)).dataBuffer =
      s.dataBuffer ++ [0xff, 0xff] ∧
    (steps s (List.replicate (p.length + 5) quiet)).overrun = true ∧
    (steps s (List.replicate (p.length + 5) quiet)).packetBuffer = rest ∧
    (steps s (List.replicate (p.length + 5) quiet)).lengthBuffer =
      s.lengthBuffer ∧
    (steps s (List.replicate (p.length + 5) quiet)).captureState ≠
      CaptureState.CAPTURE := by
  have hsplit : List.replicate (p.length + 5) quiet =
      [quiet, quiet, quiet, quiet] ++ List.replicate p.length quiet ++ [quiet] := by
    have h5 : p.length + 5 = 4 + p.length + 1 := by omega
    rw [h5, List.replicate_add, List.replicate_add]
    rfl
  rw [hsplit, steps_append, steps_append]
  have h1 := engine_inspect_overflow_step s hcap hpq (by omega)
  obtain ⟨a1, a2, a3, a4, a5, a6, a7, a8, a9, a10⟩ := h1
  have h2 := engine_overrun_step (step s quiet) (by rw [a1]; simp) a2
    (by rw [a6, a9]; omega)
  obtain ⟨b1, b2, b3, b4, b5, b6, b7, b8, b9, b10⟩ := h2
  have h3 := clear_sentinel_step (step (step s quiet) quiet)
    (by rw [b1]; simp) b2 (by rw [b3, a3]; exact Or.inl rfl)
    (by rw [b6, a6, b9, a9]; omega)
  obtain ⟨c1, c2, c3, c4, c5, c6, c7, c8, c9, c10⟩ := h3
  have h4 := clear_sentinel_step (step (step (step s quiet) quiet) quiet)
    (by rw [c1]; simp) c2 (by rw [c3, b3, a3]; exact Or.inr rfl)
    (by rw [c6, b6, a6, c9, b9, a9]; simp; omega)
  obtain ⟨d1, d2, d3, d4, d5, d6, d7, d8, d9, d10⟩ := h4
  have hs4 : steps s [quiet, quiet, quiet, quiet] =
      step (step (step (step s quiet) quiet) quiet) quiet := rfl
  rw [hs4]
  have h5 := clear_discard_run p
    (step (step (step (step s quiet) quiet) quiet) quiet) rest
    (by rw [d1]; simp) d2
    (by rw [d3, c3, b3, a3]; omega) (by rw [d3, c3, b3, a3]; omega)
    (by rw [d4, c4, b4, a4, hlen]) hsmall
    (by rw [d5, c5, b5, a5, hpb])
  obtain ⟨e1, e2, e3, e4, e5, e6, e7, e8, e9, e10⟩ := h5
  have hexit := engine_exit_step _ e1 (Or.inr e2)
    (by rw [e3, d3, c3, b3, a3]; omega) (by rw [e3, d3, c3, b3, a3]; omega) e4
  obtain ⟨f1, f2, f3, f4, f5, f6, f7, f8, f9⟩ := hexit
  have hlast : steps (steps (step (step (step (step s quiet) quiet) quiet) quiet)
      (List.replicate p.length quiet)) [quiet] =
      step (steps (step (step (step (step s quiet) quiet) quiet) quiet)
        (List.replicate p.length quiet)) quiet := rfl
  rw [hlast]
  refine ⟨f2, ?_, ?_, ?_, ?_, by rw [f1]; simp⟩
  · rw [f5, e6, d6, c6, b6, a6]
    simp
  · rw [f7, e8, d8, c8, b8]
  · rw [f4, e5]
  · rw [f6, e7, d7, c7, b7, a7]

/-- Witness for C2: the spec's concrete scenario — capacity 8, output
holding 6 bytes, next record of length 3: the output gains exactly
`0xFF 0xFF`, the flag latches, and the 3 payload bytes are discarded. -/
theorem c2_overrun_sentinel_witness :
    (steps ⟨8, CaptureState.START, PQState.INSPECT_PACKET, 0, 3, 7, false,
        [9, 9, 9, 9, 9, 9], [1, 2, 3], []⟩
      (List.replicate 8 quiet)).pqState = PQState.IDLE ∧
    (steps ⟨8, CaptureState.START, PQState.INSPECT_PACKET, 0, 3, 7, false,
        [9, 9, 9, 9, 9, 9], [1, 2, 3], []⟩
      (List.replicate 8 quiet)).dataBuffer = [9, 9, 9, 9, 9, 9] ++ [0xff, 0xff] ∧
    (steps ⟨8, CaptureState.START, PQState.INSPECT_PACKET, 0, 3, 7, false,
        [9, 9, 9, 9, 9, 9], [1, 2, 3], []⟩
      (List.replicate 8 quiet)).overrun = true ∧
    (steps ⟨8, CaptureState.START, PQState.INSPECT_PACKET, 0, 3, 7, false,
        [9, 9, 9, 9, 9, 9], [1, 2, 3], []⟩
      (List.replicate 8 quiet)).packetBuffer = [] := by
  have h := c2_overrun_sentinel
    ⟨8, CaptureState.START, PQState.INSPECT_PACKET, 0, 3, 7, false,
      [9, 9, 9, 9, 9, 9], [1, 2, 3], []⟩ [1, 2, 3] []
    (by decide) (by decide) (by decide) (by decide) (by decide) (by decide)
    (by decide)
  exact ⟨h.1, h.2.1, h.2.2.1, h.2.2.2.1⟩

/-- C7: in TRANSFER_PACKET the working length goes out high byte first
(progress step 0) then low byte (step 1), before any payload byte; then
one payload byte moves from the staging buffer to the output ring buffer
per tick while the remaining length is nonzero, and the engine is back in
IDLE (with the length counter at zero) after the run. -/
theorem c7_transfer_emission (s : AnalyzerState) (p rest : List Nat)
    (hcap : s.captureState ≠ CaptureState.CAPTURE)
    (hpq : s.pqState = PQState.TRANSFER_PACKET)
    (hpt : s.packetTransferred = 0)
    (hlen : s.packetLength = p.length) (hsmall : p.length < 65536)
    (hpb : s.packetBuffer = p ++ rest)
    (hroom : s.dataBuffer.length + p.length + 2 ≤ s.memSize)
    (hbytes : ∀ x ∈ p, x < 256) :
    dataBufferWrite s = some (s.packetLength / 256 % 256) ∧
    (steps s (List.replicate (p.length + 3) quiet)).pqState = PQState.IDLE ∧
    (steps s (List.replicate (p.length + 3) quiet)).packetLength = 0 ∧
    (steps s (List.replicate (p.length + 3) quiet)).dataBuffer =
      s.dataBuffer ++
        ((p.length / 256 % 256) :: (p.length % 256) :: p) ∧
    (steps s (List.replicate (p.length + 3) quiet)).packetBuffer = rest ∧
    (steps s (List.replicate (p.length + 3) quiet)).overrun = s.overrun := by
  have hrun := transfer_record_run s p rest hcap hpq hpt hlen hsmall hpb hroom hbytes
  refine ⟨?_, hrun.2.1, hrun.2.2.1, ?_, hrun.2.2.2.1, hrun.2.2.2.2.2.2.1⟩
  · simp [dataBufferWrite, hpq, hpt]
  · rw [hrun.2.2.2.2.1]
    rfl

/-- Witness for C7: the spec's concrete scenario — capacity 8, one record
of payload `0xAA 0xBB 0xCC` → output `0x00 0x03 0xAA 0xBB 0xCC`. -/
theorem c7_transfer_emission_witness :
    (steps ⟨8, CaptureState.START, PQState.TRANSFER_PACKET, 0, 3, 0, false,
        [], [0xAA, 0xBB, 0xCC], []⟩
      (List.replicate 6 quiet)).pqState = PQState.IDLE ∧
    (steps ⟨8, CaptureState.START, PQState.TRANSFER_PACKET, 0, 3, 0, false,
        [], [0xAA, 0xBB, 0xCC], []⟩
      (List.replicate 6 quiet)).dataBuffer = [0x00, 0x03, 0xAA, 0xBB, 0xCC] := by
  have h := c7_transfer_emission
    ⟨8, CaptureState.START, PQState.TRANSFER_PACKET, 0, 3, 0, false,
      [], [0xAA, 0xBB, 0xCC], []⟩ [0xAA, 0xBB, 0xCC] []
    (by decide) (by decide) (by decide) (by decide) (by decide) (by decide)
    (by decide) (by decide)
  exact ⟨h.2.1, h.2.2.2.1⟩

/-- Draining one queued record under a quiescent environment: from engine
IDLE with length `|p|` at the head of the pending-lengths queue and `p` at
the head of the staging buffer, `|p| + 6` ticks later the engine is back
in IDLE having appended `record p` to the output ring buffer. -/
theorem process_record_run (s : AnalyzerState) (p rest : List Nat) (ls : List Nat)
    (hcap : s.captureState ≠ CaptureState.CAPTURE)
    (hpq : s.pqState = PQState.IDLE)
    (hlb : s.lengthBuffer = p.length :: ls)
    (hsmall : p.length < 65536)
    (hpb : s.packetBuffer = p ++ rest)
    (hroom : s.dataBuffer.length + p.length + 2 ≤ s.memSize)
    (hbytes : ∀ x ∈ p, x < 256) :
    (steps s (List.replicate (p.length + 6) quiet)).captureState ≠
      CaptureState.CAPTURE ∧
    (steps s (List.replicate (p.length + 6) quiet)).pqState = PQState.IDLE ∧
    (steps s (List.replicate (p.length + 6) quiet)).packetBuffer = rest ∧
    (steps s (List.replicate (p.length + 6) quiet)).dataBuffer =
      s.dataBuffer ++ record p ∧
    (steps s (List.replicate (p.length + 6) quiet)).lengthBuffer = ls ∧
    (steps s (List.replicate (p.length + 6) quiet)).overrun = s.overrun ∧
    (steps s (List.replicate (p.length + 6) quiet)).memSize = s.memSize ∧
    (steps s (List.replicate (p.length + 6) quiet)).capturedPacketLength =
      s.capturedPacketLength := by
  have hsplit : List.replicate (p.length + 6) quiet =
      [quiet, quiet, quiet] ++ List.replicate (p.length + 3) quiet := by
    have h6 : p.length + 6 = 3 + (p.length + 3) := by omega
    rw [h6, List.replicate_add]
    rfl
  rw [hsplit, steps_append]
  have h1 := engine_idle_step s p.length ls hcap hpq hlb
  obtain ⟨a1, a2, a3, a4, a5, a6, a7, a8, a9, a10⟩ := h1
  have h2 := engine_pop_step (step s quiet) p.length ls (by rw [a1]; simp) a2
    (by rw [a7, hlb])
  obtain ⟨b1, b2, b3, b4, b5, b6, b7, b8, b9, b10⟩ := h2
  have hplmod : p.length % 65536 = p.length := Nat.mod_eq_of_lt hsmall
  have h3 := engine_inspect_fit_step (step (step s quiet) quiet)
    (by rw [b1]; simp) b2
    (by rw [b6, a6, b9, a9, b4, hplmod]; omega)
  obtain ⟨c1, c2, c3, c4, c5, c6, c7, c8, c9, c10⟩ := h3
  have hs3 : steps s [quiet, quiet, quiet] =
      step (step (step s quiet) quiet) quiet := rfl
  rw [hs3]
  have h4 := transfer_record_run (step (step (step s quiet) quiet) quiet) p rest
    (by rw [c1]; simp) c2 c3
    (by rw [c4, b4, hplmod]) hsmall
    (by rw [c5, b5, a5, hpb])
    (by rw [c6, b6, a6, c9, b9, a9]; omega) hbytes
  obtain ⟨d1, d2, d3, d4, d5, d6, d7, d8, d9⟩ := h4
  refine ⟨d1, d2, d4, ?_, ?_, ?_, ?_, ?_⟩
  · rw [d5, c6, b6, a6]
  · rw [d6, c7, b7]
  · rw [d7, c8, b8, a8]
  · rw [d8, c9, b9, a9]
  · rw [d9, c10, b10, a10]

/-- Number of quiescent ticks needed to drain the queued records `ps`. -/
def drainTicks (ps : List (List Nat)) : Nat :=
  (ps.map (fun p => p.length + 6)).sum

/-- C1: for any sequence of completed capture sessions with payloads
`ps = [p_1, ..., p_N]` (each of length at most 1024, all fitting
cumulatively in the output ring buffer), queued in order in the
pending-lengths queue and staging buffer, the byte stream pushed to the
output ring buffer is exactly the concatenation
`record p_1 ++ ... ++ record p_N` of the length-prefixed records, in
session order — no reordering, duplication or loss — and the two queues
are drained exactly. -/
theorem c1_order_preservation (ps : List (List Nat)) :
    ∀ (s : AnalyzerState) (rest : List Nat),
    s.captureState ≠ CaptureState.CAPTURE →
    s.pqState = PQState.IDLE →
    s.lengthBuffer = ps.map List.length →
    s.packetBuffer = ps.flatten ++ rest →
    (∀ p ∈ ps, p.length ≤ 1024) →
    (∀ p ∈ ps, ∀ x ∈ p, x < 256) →
    s.dataBuffer.length + (ps.map (fun p => p.length + 2)).sum ≤ s.memSize →
    (steps s (List.replicate (drainTicks ps) quiet)).dataBuffer =
      s.dataBuffer ++ (ps.map record).flatten ∧
    (steps s (List.replicate (drainTicks ps) quiet)).pqState = PQState.IDLE ∧
    (steps s (List.replicate (drainTicks ps) quiet)).lengthBuffer = [] ∧
    (steps s (List.replicate (drainTicks ps) quiet)).packetBuffer = rest ∧
    (steps s (List.replicate (drainTicks ps) quiet)).overrun = s.overrun := by
  induction ps with
  | nil =>
      intro s rest hcap hpq hlb hpb hlen1024 hbytes hroom
      exact ⟨(List.append_nil _).symm, hpq, hlb, hpb, rfl⟩
  | cons p ps ih =>
      intro s rest hcap hpq hlb hpb hlen1024 hbytes hroom
      have hsplit : List.replicate (drainTicks (p :: ps)) quiet =
          List.replicate (p.length + 6) quiet ++
            List.replicate (drainTicks ps) quiet := by
        have : drainTicks (p :: ps) = (p.length + 6) + drainTicks ps := by
          simp [drainTicks]
        rw [this, List.replicate_add]
      rw [hsplit, steps_append]
      have hsum : s.dataBuffer.length + (p.length + 2) +
          ((ps.map (fun q => q.length + 2)).sum) ≤ s.memSize := by
        have := hroom
        simp only [List.map_cons, List.sum_cons] at this
        omega
      have h1 := process_record_run s p (ps.flatten ++ rest) (ps.map List.length)
        hcap hpq (by rw [hlb]; simp)
        (by have := hlen1024 p (by simp); omega)
        (by rw [hpb]; simp)
        (by omega)
        (hbytes p (by simp))
      obtain ⟨a1, a2, a3, a4, a5, a6, a7, a8⟩ := h1
      have h2 := ih (steps s (List.replicate (p.length + 6) quiet)) rest
        a1 a2 a5 a3
        (fun q hq => hlen1024 q (by simp [hq]))
        (fun q hq => hbytes q (by simp [hq]))
        (by rw [a4, a7]
            simp only [List.length_append, record, List.length_cons]
            omega)
      refine ⟨?_, h2.2.1, h2.2.2.1, h2.2.2.2.1, ?_⟩
      · rw [h2.1, a4]
        simp [record]
      · rw [h2.2.2.2.2, a6]

/-- Witness for C1: one completed session with payload `0xAA 0xBB 0xCC` in
a depth-8 analyzer drains to the output stream `00 03 AA BB CC`. -/
theorem c1_order_preservation_witness :
    (steps ⟨8, CaptureState.START, PQState.IDLE, 0, 0, 0, false,
        [], [0xAA, 0xBB, 0xCC], [3]⟩
      (List.replicate (drainTicks [[0xAA, 0xBB, 0xCC]]) quiet)).dataBuffer =
      [] ++ ([[0xAA, 0xBB, 0xCC]].map record).flatten ∧
    (steps ⟨8, CaptureState.START, PQState.IDLE, 0, 0, 0, false,
        [], [0xAA, 0xBB, 0xCC], [3]⟩
      (List.replicate (drainTicks [[0xAA, 0xBB, 0xCC]]) quiet)).pqState =
      PQState.IDLE := by
  have h := c1_order_preservation [[0xAA, 0xBB, 0xCC]]
    ⟨8, CaptureState.START, PQState.IDLE, 0, 0, 0, false,
      [], [0xAA, 0xBB, 0xCC], [3]⟩ []
    (by decide) (by decide) (by decide) (by decide) (by decide) (by decide)
    (by decide)
  exact ⟨h.1, h.2.1⟩

/-- Replace an input's `capture_enable`, keeping the rest. -/
def setEnable (i : AnalyzerInput) (b : Bool) : AnalyzerInput :=
  ⟨i.rx_active, i.rx_valid, i.rx_data, b, i.stream_ready⟩

/-- While the capture FSM is in CAPTURE with the engine idle and the
pending-lengths queue empty, a run of receive-active ticks keeps it in
CAPTURE and adds exactly the number of valid bytes to the in-flight
counter (modulo 2^16); no length is queued. -/
theorem capture_episode_run (ms : List AnalyzerInput) :
    ∀ s : AnalyzerState,
    s.captureState = CaptureState.CAPTURE →
    s.pqState = PQState.IDLE →
    s.lengthBuffer = [] →
    s.capturedPacketLength < 65536 →
    (∀ i ∈ ms, i.rx_active = true) →
    (steps s ms).captureState = CaptureState.CAPTURE ∧
    (steps s ms).pqState = PQState.IDLE ∧
    (steps s ms).lengthBuffer = [] ∧
    (steps s ms).capturedPacketLength =
      (s.capturedPacketLength + ms.countP (fun i => byte_received i)) % 65536 := by
  induction ms with
  | nil =>
      intro s hcap hpq hlb hlt _
      refine ⟨hcap, hpq, hlb, ?_⟩
      show s.capturedPacketLength = (s.capturedPacketLength +
        List.countP (fun i => byte_received i) []) % 65536
      rw [List.countP_nil, Nat.add_zero, Nat.mod_eq_of_lt hlt]
  | cons i ms ih =>
      intro s hcap hpq hlb hlt hact
      have hia : i.rx_active = true := hact i (by simp)
      have hC : (step s i).captureState = CaptureState.CAPTURE := by
        rw [step_captureState]
        simp [nextCaptureState, hcap, hia]
      have hQ : (step s i).pqState = PQState.IDLE := by
        rw [step_pqState]
        simp [nextPQState, hpq, hlb]
      have hL : (step s i).lengthBuffer = [] := by
        rw [step_lengthBuffer]
        unfold nextLengthBuffer
        have hw : lengthBufferWEn s i = false := by
          simp [lengthBufferWEn, hia]
        have hr : lengthBufferREn s = false := by
          simp [lengthBufferREn, hpq]
        rw [hw, hr, fifoStep_idle, hlb]
      have hcpl : (step s i).capturedPacketLength =
          if byte_received i = true then (s.capturedPacketLength + 1) % 65536
          else s.capturedPacketLength := by
        rw [step_cpl]
        simp [nextCPL, hcap]
      rw [steps_cons]
      by_cases hbr : byte_received i = true
      · have hlt2 : (step s i).capturedPacketLength < 65536 := by
          rw [hcpl, if_pos hbr]
          exact Nat.mod_lt _ (by omega)
        have ihx := ih (step s i) hC hQ hL hlt2 (fun j hj => hact j (by simp [hj]))
        refine ⟨ihx.1, ihx.2.1, ihx.2.2.1, ?_⟩
        rw [ihx.2.2.2, hcpl, if_pos hbr]
        rw [List.countP_cons]
        simp only [hbr, if_pos]
        omega
      · have hbr0 : byte_received i = false := by
          cases h : byte_received i
          · rfl
          · exact absurd h hbr
        have hlt2 : (step s i).capturedPacketLength < 65536 := by
          rw [hcpl, if_neg hbr]
          exact hlt
        have ihx := ih (step s i) hC hQ hL hlt2 (fun j hj => hact j (by simp [hj]))
        refine ⟨ihx.1, ihx.2.1, ihx.2.2.1, ?_⟩
        rw [ihx.2.2.2, hcpl, if_neg hbr]
        rw [List.countP_cons]
        simp [hbr0]

/-- End of a capture session: from CAPTURE with the engine idle and the
pending-lengths queue empty, a run of active ticks followed by one
inactive tick queues exactly one length — the final in-flight count — and
returns the capture FSM to IDLE. The ticks' `capture_enable` is
unconstrained. -/
theorem episode_end_run (s : AnalyzerState) (ms : List AnalyzerInput)
    (last : AnalyzerInput)
    (hcap : s.captureState = CaptureState.CAPTURE)
    (hpq : s.pqState = PQState.IDLE)
    (hlb : s.lengthBuffer = [])
    (hlt : s.capturedPacketLength < 65536)
    (hact : ∀ i ∈ ms, i.rx_active = true)
    (hlast : last.rx_active = false) :
    (steps s (ms ++ [last])).lengthBuffer =
      [(s.capturedPacketLength + ms.countP (fun i => byte_received i)) % 65536] ∧
    (steps s (ms ++ [last])).captureState = CaptureState.IDLE := by
  rw [steps_append]
  have h1 := capture_episode_run ms s hcap hpq hlb hlt hact
  obtain ⟨a1, a2, a3, a4⟩ := h1
  have hlaststep : steps (steps s ms) [last] = step (steps s ms) last := rfl
  rw [hlaststep]
  constructor
  · rw [step_lengthBuffer]
    unfold nextLengthBuffer
    have hw : lengthBufferWEn (steps s ms) last = true := by
      simp [lengthBufferWEn, a1, hlast]
    have hr : lengthBufferREn (steps s ms) = false := by
      simp [lengthBufferREn, a2]
    rw [hw, hr, a3]
    show fifoStep LENGTH_FIFO_DEPTH [] false true
      ((steps s ms).capturedPacketLength % 65536) = _
    rw [fifoStep_write _ _ _ (by simp [LENGTH_FIFO_DEPTH])]
    rw [a4]
    simp only [List.nil_append]
    congr 1
    omega
  · rw [step_captureState]
    simp [nextCaptureState, a1, hlast]

/-- C3 counterexample: a receive-active episode of one cycle that carries
a valid byte, on an armed analyzer (capture FSM in IDLE after the first
tick).  The episode contains exactly one cycle on which the channel
reported both active and valid, yet the queued length is 0 (and the byte
was not stored): the front-end misses bytes on the cycle it first
observes `rx_active`, while still in IDLE. -/
theorem c3_first_cycle_byte_dropped :
    (steps (initState 8)
        [⟨false, false, 0, true, false⟩, ⟨true, true, 0x5A, true, false⟩,
         ⟨false, false, 0, true, false⟩]).lengthBuffer = [0] ∧
    (steps (initState 8)
        [⟨false, false, 0, true, false⟩, ⟨true, true, 0x5A, true, false⟩,
         ⟨false, false, 0, true, false⟩]).packetBuffer = [] ∧
    List.countP (fun i => byte_received i)
      (List.filter (fun i => i.rx_active)
        [⟨false, false, 0, true, false⟩, ⟨true, true, 0x5A, true, false⟩,
         ⟨false, false, 0, true, false⟩]) = 1 := by
  decide

/-- C3 (amended): for an episode first observed from IDLE with capture
enabled, exactly one length is queued, equal (mod 2^16) to the number of
bytes reported active-and-valid on the episode's ticks after the first
one — the observation tick `i0` itself contributes no byte.  A session
with no valid bytes queues 0. -/
theorem c3_session_length_queued (s : AnalyzerState) (i0 last : AnalyzerInput)
    (ms : List AnalyzerInput)
    (hcap : s.captureState = CaptureState.IDLE)
    (hpq : s.pqState = PQState.IDLE)
    (hlb : s.lengthBuffer = [])
    (h0e : i0.capture_enable = true) (h0a : i0.rx_active = true)
    (hms : ∀ i ∈ ms, i.rx_active = true)
    (hlast : last.rx_active = false) :
    (steps s (i0 :: (ms ++ [last]))).lengthBuffer =
      [ms.countP (fun i => byte_received i) % 65536] ∧
    (steps s (i0 :: (ms ++ [last]))).captureState = CaptureState.IDLE := by
  rw [steps_cons]
  have hC : (step s i0).captureState = CaptureState.CAPTURE := by
    rw [step_captureState]
    simp [nextCaptureState, hcap, h0e, h0a]
  have hQ : (step s i0).pqState = PQState.IDLE := by
    rw [step_pqState]
    simp [nextPQState, hpq, hlb]
  have hL : (step s i0).lengthBuffer = [] := by
    rw [step_lengthBuffer]
    unfold nextLengthBuffer
    have hw : lengthBufferWEn s i0 = false := by simp [lengthBufferWEn, hcap]
    have hr : lengthBufferREn s = false := by simp [lengthBufferREn, hpq]
    rw [hw, hr, fifoStep_idle, hlb]
  have hcpl : (step s i0).capturedPacketLength = 0 := by
    rw [step_cpl]
    simp [nextCPL, hcap, h0e, h0a]
  have h := episode_end_run (step s i0) ms last hC hQ hL
    (by rw [hcpl]; omega) hms hlast
  rw [hcpl, Nat.zero_add] at h
  exact h

/-- Witness for C3's amended theorem: armed analyzer, a three-tick episode
(one observation tick, one valid byte, one active-but-invalid tick, then
the inactive tick) queues exactly [1]. -/
theorem c3_session_length_queued_witness :
    (steps ⟨8, CaptureState.IDLE, PQState.IDLE, 0, 0, 0, false, [], [], []⟩
        (⟨true, true, 7, true, false⟩ ::
          ([⟨true, true, 8, true, false⟩, ⟨true, false, 9, true, false⟩] ++
            [⟨false, false, 0, true, false⟩]))).lengthBuffer = [1] ∧
    (steps ⟨8, CaptureState.IDLE, PQState.IDLE, 0, 0, 0, false, [], [], []⟩
        (⟨true, true, 7, true, false⟩ ::
          ([⟨true, true, 8, true, false⟩, ⟨true, false, 9, true, false⟩] ++
            [⟨false, false, 0, true, false⟩]))).captureState =
      CaptureState.IDLE := by
  have h := c3_session_length_queued
    ⟨8, CaptureState.IDLE, PQState.IDLE, 0, 0, 0, false, [], [], []⟩
    ⟨true, true, 7, true, false⟩ ⟨false, false, 0, true, false⟩
    [⟨true, true, 8, true, false⟩, ⟨true, false, 9, true, false⟩]
    (by decide) (by decide) (by decide) (by decide) (by decide)
    (by decide) (by decide)
  exact ⟨by rw [h.1]; decide, h.2⟩

/-- C8: disabling capture mid-session never truncates it.  (i) In CAPTURE
a tick's effect is independent of `capture_enable`; (ii) a session in
progress, even with `capture_enable` deasserted on every remaining tick,
still runs to its natural end and queues its full byte count; (iii) from
START the FSM re-arms (reaches IDLE) exactly when the channel is observed
inactive with enable asserted; (iv) from IDLE a disable falls back to
START. -/
theorem c8_enable_boundary (s : AnalyzerState) :
    (∀ (i : AnalyzerInput) (b : Bool), s.captureState = CaptureState.CAPTURE →
      step s i = step s (setEnable i b)) ∧
    (∀ (ms : List AnalyzerInput) (last : AnalyzerInput),
      s.captureState = CaptureState.CAPTURE → s.pqState = PQState.IDLE →
      s.lengthBuffer = [] → s.capturedPacketLength < 65536 →
      (∀ i ∈ ms, i.rx_active = true) → last.rx_active = false →
      (steps s (ms ++ [last])).lengthBuffer =
        [(s.capturedPacketLength +
          ms.countP (fun i => byte_received i)) % 65536] ∧
      (steps s (ms ++ [last])).captureState = CaptureState.IDLE) ∧
    (∀ i : AnalyzerInput, s.captureState = CaptureState.START →
      ((step s i).captureState = CaptureState.IDLE ↔
        i.rx_active = false ∧ i.capture_enable = true)) ∧
    (∀ i : AnalyzerInput, s.captureState = CaptureState.IDLE →
      i.capture_enable = false →
      (step s i).captureState = CaptureState.START) := by
  refine ⟨?_, ?_, ?_, ?_⟩
  · intro i b hcap
    simp [step, nextCaptureState, nextPQState, nextCPL, nextPacketLength,
      nextPT, nextOverrun, nextDataBuffer, nextPacketBuffer, nextLengthBuffer,
      dataBufferWrite, packetBufferWEn, lengthBufferWEn, lengthBufferREn,
      packetBufferREn, byte_received, setEnable, hcap]
  · intro ms last hcap hpq hlb hlt hms hlast
    exact episode_end_run s ms last hcap hpq hlb hlt hms hlast
  · intro i hcap
    rw [step_captureState]
    cases ha : i.rx_active <;> cases he : i.capture_enable <;>
      simp [nextCaptureState, hcap, ha, he]
  · intro i hcap he
    rw [step_captureState]
    simp [nextCaptureState, hcap, he]

/-- Witness for C8: a session that continues with `capture_enable` low
still queues its full count (2 bytes already counted + 1 more = 3); a
CAPTURE tick is unchanged by forcing enable low; START re-arms on an
inactive-and-enabled tick; IDLE falls back to START on disable. -/
theorem c8_enable_boundary_witness :
    (step ⟨8, CaptureState.CAPTURE, PQState.IDLE, 2, 0, 0, false, [], [5, 6], []⟩
        ⟨true, true, 7, true, false⟩ =
      step ⟨8, CaptureState.CAPTURE, PQState.IDLE, 2, 0, 0, false, [], [5, 6], []⟩
        (setEnable ⟨true, true, 7, true, false⟩ false)) ∧
    ((steps ⟨8, CaptureState.CAPTURE, PQState.IDLE, 2, 0, 0, false, [], [5, 6], []⟩
        ([⟨true, true, 7, false, false⟩] ++ [⟨false, false, 0, false, false⟩])).lengthBuffer =
      [3]) ∧
    ((step ⟨8, CaptureState.START, PQState.IDLE, 0, 0, 0, false, [], [], []⟩
        ⟨false, false, 0, true, false⟩).captureState = CaptureState.IDLE) ∧
    ((step ⟨8, CaptureState.IDLE, PQState.IDLE, 0, 0, 0, false, [], [], []⟩
        ⟨false, false, 0, false, false⟩).captureState = CaptureState.START) := by
  refine ⟨?_, ?_, ?_, ?_⟩
  · exact (c8_enable_boundary
      ⟨8, CaptureState.CAPTURE, PQState.IDLE, 2, 0, 0, false, [], [5, 6], []⟩).1
      ⟨true, true, 7, true, false⟩ false (by decide)
  · have h := (c8_enable_boundary
      ⟨8, CaptureState.CAPTURE, PQState.IDLE, 2, 0, 0, false, [], [5, 6], []⟩).2.1
      [⟨true, true, 7, false, false⟩] ⟨false, false, 0, false, false⟩
      (by decide) (by decide) (by decide) (by decide) (by decide) (by decide)
    rw [h.1]
    decide
  · exact ((c8_enable_boundary
      ⟨8, CaptureState.START, PQState.IDLE, 0, 0, 0, false, [], [], []⟩).2.2.1
      ⟨false, false, 0, true, false⟩ (by decide)).mpr ⟨rfl, rfl⟩
  · exact (c8_enable_boundary
      ⟨8, CaptureState.IDLE, PQState.IDLE, 0, 0, 0, false, [], [], []⟩).2.2.2
      ⟨false, false, 0, false, false⟩ (by decide) (by decide)

/-- Bytes of the record the engine currently holds that are still to be
consumed from the staging buffer: `packet_length` once the length has been
popped (INSPECT_PACKET onwards), nothing while idle or still popping. -/
def engineRemaining (s : AnalyzerState) : Nat :=
  match s.pqState with
  | PQState.IDLE => 0
  | PQState.POP_LENGTH => 0
  | _ => s.packetLength

/-- Bytes of the in-flight capture session counted so far (0 outside
CAPTURE). -/
def inflightBytes (s : AnalyzerState) : Nat :=
  if s.captureState = CaptureState.CAPTURE then s.capturedPacketLength else 0

/-- The staging invariant: the in-flight count, the queued lengths and the
engine's remaining count together never exceed the staging buffer's fill
level (so every queued byte is really present), and the fill level is
within capacity. -/
def StagingInv (s : AnalyzerState) : Prop :=
  inflightBytes s + s.lengthBuffer.sum + engineRemaining s ≤
    s.packetBuffer.length ∧
  s.packetBuffer.length ≤ MAX_PACKET_SIZE_BYTES

/-- An input is good for a state when any staging-buffer write it causes
finds room, i.e. the in-flight session has not overflowed the staging
capacity. -/
def goodInput (s : AnalyzerState) (i : AnalyzerInput) : Bool :=
  !packetBufferWEn s i || decide (s.packetBuffer.length < MAX_PACKET_SIZE_BYTES)

/-- A trace is good when every tick's input is good for the state it is
applied to. -/
def goodTrace (s : AnalyzerState) : List AnalyzerInput → Bool
  | [] => true
  | i :: rest => goodInput s i && goodTrace (step s i) rest

theorem headD_le_sum (q : List Nat) : q.headD 0 ≤ q.sum := by
  cases q <;> simp

theorem tail_sum (q : List Nat) : q.tail.sum = q.sum - q.headD 0 := by
  cases q <;> simp

theorem fifoStep_length_le (cap : Nat) (q : List Nat) (r w : Bool) (d : Nat)
    (h : q.length ≤ cap) : (fifoStep cap q r w d).length ≤ cap := by
  unfold fifoStep
  split_ifs <;> cases r <;> simp_all <;> omega

/-- Fill level after one FIFO tick, in pop-then-push form. -/
theorem fifoStep_length_eq (cap : Nat) (q : List Nat) (r w : Bool) (d : Nat)
    (hr : r = true → q ≠ []) :
    (fifoStep cap q r w d).length =
      q.length - (if r = true then 1 else 0) +
        (if w = true ∧ q.length < cap then 1 else 0) := by
  unfold fifoStep
  cases r with
  | false => split_ifs <;> simp
  | true =>
      have hq : q ≠ [] := hr rfl
      split_ifs <;> simp [List.length_tail]

/-- Sum after one FIFO tick, in pop-then-push form. -/
theorem fifoStep_sum_eq (cap : Nat) (q : List Nat) (r w : Bool) (d : Nat) :
    (fifoStep cap q r w d).sum =
      q.sum - (if r = true then q.headD 0 else 0) +
        (if w = true ∧ q.length < cap then d else 0) := by
  unfold fifoStep
  have ht := tail_sum q
  split_ifs <;> cases r <;> simp_all

/-- Sum of the pending-lengths queue after one tick, in pop-then-push
form. -/
theorem lengthBuffer_sum_step (s : AnalyzerState) (i : AnalyzerInput) :
    (step s i).lengthBuffer.sum =
      s.lengthBuffer.sum -
        (if lengthBufferREn s = true then s.lengthBuffer.headD 0 else 0) +
        (if lengthBufferWEn s i = true ∧
            s.lengthBuffer.length < LENGTH_FIFO_DEPTH
          then s.capturedPacketLength % 65536 else 0) := by
  rw [step_lengthBuffer]
  unfold nextLengthBuffer
  rw [fifoStep_sum_eq]

/-- Fill level of the staging buffer after one tick, in pop-then-push
form. -/
theorem packetBuffer_length_step (s : AnalyzerState) (i : AnalyzerInput)
    (hpop : packetBufferREn s = true → s.packetBuffer ≠ []) :
    (step s i).packetBuffer.length =
      s.packetBuffer.length - (if packetBufferREn s = true then 1 else 0) +
        (if packetBufferWEn s i = true ∧
            s.packetBuffer.length < MAX_PACKET_SIZE_BYTES
          then 1 else 0) := by
  rw [step_packetBuffer]
  unfold nextPacketBuffer
  rw [fifoStep_length_eq _ _ _ _ _ hpop]

/-- Capture side of the invariant step: what the front-end adds to the
in-flight count plus what it queues as a finished length is covered by
the old in-flight count plus the staging byte it stores (good inputs make
the staging write land). -/
theorem capture_side_step (s : AnalyzerState) (i : AnalyzerInput)
    (hgood : goodInput s i = true) :
    inflightBytes (step s i) +
      (if lengthBufferWEn s i = true ∧
          s.lengthBuffer.length < LENGTH_FIFO_DEPTH
        then s.capturedPacketLength % 65536 else 0) ≤
    inflightBytes s +
      (if packetBufferWEn s i = true ∧
          s.packetBuffer.length < MAX_PACKET_SIZE_BYTES
        then 1 else 0) := by
  have hI : inflightBytes (step s i) =
      if (step s i).captureState = CaptureState.CAPTURE
      then (step s i).capturedPacketLength else 0 := rfl
  cases hcs : s.captureState with
  | START =>
      have hw : lengthBufferWEn s i = false := by simp [lengthBufferWEn, hcs]
      have hI0 : inflightBytes (step s i) = 0 := by
        rw [hI, step_captureState, step_cpl]
        simp only [nextCaptureState, hcs]
        split <;> simp
      rw [hI0, hw, if_neg (fun h => Bool.false_ne_true h.1)]
      omega
  | IDLE =>
      have hw : lengthBufferWEn s i = false := by simp [lengthBufferWEn, hcs]
      have hI0 : inflightBytes (step s i) = 0 := by
        rw [hI, step_captureState, step_cpl]
        simp only [nextCaptureState, nextCPL, hcs]
        cases he : i.capture_enable <;> cases ha : i.rx_active <;> simp
      rw [hI0, hw, if_neg (fun h => Bool.false_ne_true h.1)]
      omega
  | CAPTURE =>
      have hIs : inflightBytes s = s.capturedPacketLength := by
        simp [inflightBytes, hcs]
      cases ha : i.rx_active with
      | false =>
          have hI0 : inflightBytes (step s i) = 0 := by
            rw [hI, step_captureState]
            simp [nextCaptureState, hcs, ha]
          have hmod : s.capturedPacketLength % 65536 ≤ s.capturedPacketLength :=
            Nat.mod_le _ _
          rw [hI0, hIs]
          split_ifs <;> omega
      | true =>
          have hw : lengthBufferWEn s i = false := by
            simp [lengthBufferWEn, hcs, ha]
          have hC : (step s i).captureState = CaptureState.CAPTURE := by
            rw [step_captureState]
            simp [nextCaptureState, hcs, ha]
          cases hv : i.rx_valid with
          | false =>
              have hI1 : inflightBytes (step s i) = s.capturedPacketLength := by
                rw [hI, if_pos hC, step_cpl]
                simp [nextCPL, hcs, byte_received, hv, ha]
              rw [hI1, hw, hIs, if_neg (fun h => Bool.false_ne_true h.1)]
              omega
          | true =>
              have hwPB : packetBufferWEn s i = true := by
                simp [packetBufferWEn, hcs, byte_received, hv, ha]
              have hroom : s.packetBuffer.length < MAX_PACKET_SIZE_BYTES := by
                unfold goodInput at hgood
                rw [hwPB] at hgood
                simpa using hgood
              have hI1 : inflightBytes (step s i) =
                  (s.capturedPacketLength + 1) % 65536 := by
                rw [hI, if_pos hC, step_cpl]
                simp [nextCPL, hcs, byte_received, hv, ha]
              have hmod : (s.capturedPacketLength + 1) % 65536 ≤
                  s.capturedPacketLength + 1 := Nat.mod_le _ _
              rw [hI1, hw, hIs, if_neg (fun h => Bool.false_ne_true h.1),
                if_pos ⟨hwPB, hroom⟩]
              omega

/-- Engine side of the invariant step: the engine's new remaining count
plus what it popped from the staging buffer is covered by the head length
it popped from the pending queue plus its old remaining count. -/
theorem engine_side_step (s : AnalyzerState) (i : AnalyzerInput)
    (hlen : engineRemaining s ≤ 1027) :
    s.lengthBuffer.sum -
        (if lengthBufferREn s = true then s.lengthBuffer.headD 0 else 0) +
      engineRemaining (step s i) +
      (if packetBufferREn s = true then 1 else 0) ≤
    s.lengthBuffer.sum + engineRemaining s := by
  have hR : engineRemaining (step s i) =
      match (step s i).pqState with
      | PQState.IDLE => 0
      | PQState.POP_LENGTH => 0
      | _ => (step s i).packetLength := rfl
  have hhead := headD_le_sum s.lengthBuffer
  cases hpq : s.pqState with
  | IDLE =>
      have hr : lengthBufferREn s = false := by simp [lengthBufferREn, hpq]
      have hp : packetBufferREn s = false := by simp [packetBufferREn, hpq]
      have hR0 : engineRemaining (step s i) = 0 := by
        cases hlb : s.lengthBuffer.isEmpty
        · have hq2 : (step s i).pqState = PQState.POP_LENGTH := by
            rw [step_pqState]
            simp [nextPQState, hpq, hlb]
          rw [hR, hq2]
        · have hq2 : (step s i).pqState = PQState.IDLE := by
            rw [step_pqState]
            simp [nextPQState, hpq, hlb]
          rw [hR, hq2]
      rw [hR0, hr, hp, if_neg Bool.false_ne_true, if_neg Bool.false_ne_true]
      omega
  | POP_LENGTH =>
      have hr : lengthBufferREn s = true := by simp [lengthBufferREn, hpq]
      have hp : packetBufferREn s = false := by simp [packetBufferREn, hpq]
      have hR1 : engineRemaining (step s i) = s.lengthBuffer.headD 0 % 65536 := by
        have hq2 : (step s i).pqState = PQState.INSPECT_PACKET := by
          rw [step_pqState]
          simp [nextPQState, hpq]
        rw [hR, hq2]
        show (step s i).packetLength = s.lengthBuffer.headD 0 % 65536
        rw [step_packetLength]
        simp [nextPacketLength, hpq]
      have hmod : s.lengthBuffer.headD 0 % 65536 ≤ s.lengthBuffer.headD 0 :=
        Nat.mod_le _ _
      rw [hR1, hr, hp, if_pos rfl, if_neg Bool.false_ne_true]
      omega
  | INSPECT_PACKET =>
      have hr : lengthBufferREn s = false := by simp [lengthBufferREn, hpq]
      have hp : packetBufferREn s = false := by simp [packetBufferREn, hpq]
      have hL1 : (step s i).packetLength = s.packetLength := by
        rw [step_packetLength]
        simp [nextPacketLength, hpq]
      have hR1 : engineRemaining (step s i) = s.packetLength := by
        by_cases hc : s.dataBuffer.length + s.packetLength + 2 > s.memSize
        · have hq2 : (step s i).pqState = PQState.OVERRUN := by
            rw [step_pqState]
            simp only [nextPQState, hpq]
            rw [if_pos hc]
          rw [hR, hq2]
          show (step s i).packetLength = s.packetLength
          exact hL1
        · have hq2 : (step s i).pqState = PQState.TRANSFER_PACKET := by
            rw [step_pqState]
            simp only [nextPQState, hpq]
            rw [if_neg hc]
          rw [hR, hq2]
          show (step s i).packetLength = s.packetLength
          exact hL1
      have hRs : engineRemaining s = s.packetLength := by
        simp [engineRemaining, hpq]
      rw [hR1, hr, hp, hRs, if_neg Bool.false_ne_true, if_neg Bool.false_ne_true]
      omega
  | OVERRUN =>
      have hr : lengthBufferREn s = false := by simp [lengthBufferREn, hpq]
      have hp : packetBufferREn s = false := by simp [packetBufferREn, hpq]
      have hL1 : (step s i).packetLength = s.packetLength := by
        rw [step_packetLength]
        simp [nextPacketLength, hpq]
      have hR1 : engineRemaining (step s i) = s.packetLength := by
        by_cases hc : s.dataBuffer.length + 2 ≤ s.memSize
        · have hq2 : (step s i).pqState = PQState.CLEAR_OVERRUN := by
            rw [step_pqState]
            simp only [nextPQState, hpq]
            rw [if_pos hc]
          rw [hR, hq2]
          show (step s i).packetLength = s.packetLength
          exact hL1
        · have hq2 : (step s i).pqState = PQState.OVERRUN := by
            rw [step_pqState]
            simp only [nextPQState, hpq]
            rw [if_neg hc]
          rw [hR, hq2]
          show (step s i).packetLength = s.packetLength
          exact hL1
      have hRs : engineRemaining s = s.packetLength := by
        simp [engineRemaining, hpq]
      rw [hR1, hr, hp, hRs, if_neg Bool.false_ne_true, if_neg Bool.false_ne_true]
      omega
  | TRANSFER_PACKET =>
      have hr : lengthBufferREn s = false := by simp [lengthBufferREn, hpq]
      have hRs : engineRemaining s = s.packetLength := by
        simp [engineRemaining, hpq]
      rw [hr, hRs]
      by_cases hc : s.packetTransferred ≠ 0 ∧ s.packetTransferred ≠ 1 ∧
          s.packetLength ≠ 0
      · obtain ⟨hc1, hc2, hc3⟩ := hc
        have hp : packetBufferREn s = true := by
          simp [packetBufferREn, hpq, hc1, hc2, hc3]
        have hQ : (step s i).pqState = PQState.TRANSFER_PACKET := by
          rw [step_pqState]
          simp only [nextPQState, hpq]
          rw [if_neg (fun hx => hc3 hx.2.2)]
        have hR1 : engineRemaining (step s i) = (s.packetLength - 1) % 65536 := by
          rw [hR, hQ]
          show (step s i).packetLength = (s.packetLength - 1) % 65536
          rw [step_packetLength]
          simp only [nextPacketLength, hpq]
          rw [if_pos ⟨hc1, hc2, hc3⟩]
        have hmod : (s.packetLength - 1) % 65536 = s.packetLength - 1 :=
          Nat.mod_eq_of_lt (by rw [hRs] at hlen; omega)
        rw [hR1, hmod, hp, if_neg Bool.false_ne_true, if_pos rfl]
        omega
      · have hp : packetBufferREn s = false := by
          cases h : packetBufferREn s
          · rfl
          · exfalso
            apply hc
            simp only [packetBufferREn, hpq] at h
            have h2 := by simpa using h
            exact ⟨h2.1.1, h2.1.2, h2.2⟩
        have hL1 : (step s i).packetLength = s.packetLength := by
          rw [step_packetLength]
          simp only [nextPacketLength, hpq]
          rw [if_neg hc]
        have hRle : engineRemaining (step s i) ≤ s.packetLength := by
          by_cases he : s.packetTransferred ≠ 0 ∧ s.packetTransferred ≠ 1 ∧
              s.packetLength = 0
          · have hq2 : (step s i).pqState = PQState.IDLE := by
              rw [step_pqState]
              simp only [nextPQState, hpq]
              rw [if_pos he]
            rw [hR, hq2]
            exact Nat.zero_le _
          · have hq2 : (step s i).pqState = PQState.TRANSFER_PACKET := by
              rw [step_pqState]
              simp only [nextPQState, hpq]
              rw [if_neg he]
            rw [hR, hq2]
            show (step s i).packetLength ≤ s.packetLength
            exact le_of_eq hL1
        rw [hp, if_neg Bool.false_ne_true, if_neg Bool.false_ne_true]
        omega
  | CLEAR_OVERRUN =>
      have hr : lengthBufferREn s = false := by simp [lengthBufferREn, hpq]
      have hRs : engineRemaining s = s.packetLength := by
        simp [engineRemaining, hpq]
      rw [hr, hRs]
      by_cases hc : s.packetTransferred ≠ 0 ∧ s.packetTransferred ≠ 1 ∧
          s.packetLength ≠ 0
      · obtain ⟨hc1, hc2, hc3⟩ := hc
        have hp : packetBufferREn s = true := by
          simp [packetBufferREn, hpq, hc1, hc2, hc3]
        have hQ : (step s i).pqState = PQState.CLEAR_OVERRUN := by
          rw [step_pqState]
          simp only [nextPQState, hpq]
          rw [if_neg (fun hx => hc3 hx.2.2)]
        have hR1 : engineRemaining (step s i) = (s.packetLength - 1) % 65536 := by
          rw [hR, hQ]
          show (step s i).packetLength = (s.packetLength - 1) % 65536
          rw [step_packetLength]
          simp only [nextPacketLength, hpq]
          rw [if_pos ⟨hc1, hc2, hc3⟩]
        have hmod : (s.packetLength - 1) % 65536 = s.packetLength - 1 :=
          Nat.mod_eq_of_lt (by rw [hRs] at hlen; omega)
        rw [hR1, hmod, hp, if_neg Bool.false_ne_true, if_pos rfl]
        omega
      · have hp : packetBufferREn s = false := by
          cases h : packetBufferREn s
          · rfl
          · exfalso
            apply hc
            simp only [packetBufferREn, hpq] at h
            have h2 := by simpa using h
            exact ⟨h2.1.1, h2.1.2, h2.2⟩
        have hL1 : (step s i).packetLength = s.packetLength := by
          rw [step_packetLength]
          simp only [nextPacketLength, hpq]
          rw [if_neg hc]
        have hRle : engineRemaining (step s i) ≤ s.packetLength := by
          by_cases he : s.packetTransferred ≠ 0 ∧ s.packetTransferred ≠ 1 ∧
              s.packetLength = 0
          · have hq2 : (step s i).pqState = PQState.IDLE := by
              rw [step_pqState]
              simp only [nextPQState, hpq]
              rw [if_pos he]
            rw [hR, hq2]
            exact Nat.zero_le _
          · have hq2 : (step s i).pqState = PQState.CLEAR_OVERRUN := by
              rw [step_pqState]
              simp only [nextPQState, hpq]
              rw [if_neg he]
            rw [hR, hq2]
            show (step s i).packetLength ≤ s.packetLength
            exact le_of_eq hL1
        rw [hp, if_neg Bool.false_ne_true, if_neg Bool.false_ne_true]
        omega

/-- Under the balance inequality, an asserted staging-buffer read enable
implies the staging buffer is non-empty (the unguarded pops are safe). -/
theorem rEn_imp_nonempty (s : AnalyzerState)
    (hbal : inflightBytes s + s.lengthBuffer.sum + engineRemaining s ≤
      s.packetBuffer.length)
    (h : packetBufferREn s = true) : s.packetBuffer ≠ [] := by
  have hform : 1 ≤ engineRemaining s := by
    cases hpq : s.pqState with
    | IDLE => simp [packetBufferREn, hpq] at h
    | POP_LENGTH => simp [packetBufferREn, hpq] at h
    | INSPECT_PACKET => simp [packetBufferREn, hpq] at h
    | OVERRUN => simp [packetBufferREn, hpq] at h
    | TRANSFER_PACKET =>
        simp only [packetBufferREn, hpq] at h
        have h2 : s.packetLength ≠ 0 := by
          have h3 := by simpa using h
          exact h3.2
        have hRs : engineRemaining s = s.packetLength := by
          simp [engineRemaining, hpq]
        omega
    | CLEAR_OVERRUN =>
        simp only [packetBufferREn, hpq] at h
        have h2 : s.packetLength ≠ 0 := by
          have h3 := by simpa using h
          exact h3.2
        have hRs : engineRemaining s = s.packetLength := by
          simp [engineRemaining, hpq]
        omega
  intro hnil
  rw [hnil] at hbal
  simp at hbal
  omega

/-- One-step preservation of the staging invariant for good inputs. -/
theorem staging_inv_step (s : AnalyzerState) (i : AnalyzerInput)
    (hinv : StagingInv s) (hgood : goodInput s i = true) :
    StagingInv (step s i) := by
  obtain ⟨hbal, hcap1027⟩ := hinv
  have hpop : packetBufferREn s = true → s.packetBuffer ≠ [] :=
    rEn_imp_nonempty s hbal
  constructor
  · have hS := lengthBuffer_sum_step s i
    have hP := packetBuffer_length_step s i hpop
    have hcapL := capture_side_step s i hgood
    have hengL := engine_side_step s i
      (by unfold MAX_PACKET_SIZE_BYTES at hcap1027; omega)
    rw [hS, hP]
    omega
  · rw [step_packetBuffer]
    unfold nextPacketBuffer
    exact fifoStep_length_le _ _ _ _ _ hcap1027

/-- Trace closure of the staging invariant over good traces. -/
theorem staging_inv_steps (ins : List AnalyzerInput) :
    ∀ s : AnalyzerState, StagingInv s → goodTrace s ins = true →
    StagingInv (steps s ins) := by
  induction ins with
  | nil => intro s h _; exact h
  | cons i rest ih =>
      intro s h hg
      unfold goodTrace at hg
      rw [Bool.and_eq_true] at hg
      rw [steps_cons]
      exact ih (step s i) (staging_inv_step s i h hg.1) hg.2

/-- C4 (amended): the staging invariant holds at reset, is preserved by
every trace in which each staging write finds room (no session overflows
the 1027-byte staging capacity), and it implies the claimed properties:
the sum of queued lengths never exceeds the staging fill level, and the
unguarded staging pops of TRANSFER_PACKET / CLEAR_OVERRUN never address an
empty buffer. -/
theorem c4_staging_invariant :
    (∀ d : Nat, StagingInv (initState d)) ∧
    (∀ (s : AnalyzerState) (ins : List AnalyzerInput),
      StagingInv s → goodTrace s ins = true → StagingInv (steps s ins)) ∧
    (∀ s : AnalyzerState, StagingInv s →
      s.lengthBuffer.sum ≤ s.packetBuffer.length ∧
      (packetBufferREn s = true → s.packetBuffer ≠ [])) := by
  refine ⟨?_, ?_, ?_⟩
  · intro d
    exact ⟨by simp [inflightBytes, engineRemaining, initState],
      by simp [initState, MAX_PACKET_SIZE_BYTES]⟩
  · intro s ins h hg
    exact staging_inv_steps ins s h hg
  · intro s h
    obtain ⟨hbal, _⟩ := h
    exact ⟨by omega, rEn_imp_nonempty s hbal⟩

/-- Witness for C4's amended theorem: the invariant at reset, through a
concrete good three-tick trace, and its consequences there. -/
theorem c4_staging_invariant_witness :
    StagingInv (initState 8) ∧
    StagingInv (steps (initState 8)
      [⟨false, false, 0, true, false⟩, ⟨true, true, 7, true, false⟩,
       ⟨true, true, 8, true, false⟩]) ∧
    (steps (initState 8)
      [⟨false, false, 0, true, false⟩, ⟨true, true, 7, true, false⟩,
       ⟨true, true, 8, true, false⟩]).lengthBuffer.sum ≤
      (steps (initState 8)
        [⟨false, false, 0, true, false⟩, ⟨true, true, 7, true, false⟩,
         ⟨true, true, 8, true, false⟩]).packetBuffer.length := by
  have h1 : StagingInv (initState 8) := c4_staging_invariant.1 8
  have h2 := c4_staging_invariant.2.1 (initState 8)
    [⟨false, false, 0, true, false⟩, ⟨true, true, 7, true, false⟩,
     ⟨true, true, 8, true, false⟩]
    ⟨by decide, by decide⟩ (by decide)
  exact ⟨h1, h2, (c4_staging_invariant.2.2 _ h2).1⟩

/-- The input used by the C4 counterexample trace: receive active and
valid with byte 0, capture enabled, consumer idle. -/
def rxIn : AnalyzerInput := ⟨true, true, 0, true, false⟩

/-- Closed form of a capture burst: from CAPTURE with the engine idle and
no pending lengths, `n` active-and-valid ticks raise the in-flight count
by `n` (mod 2^16) but fill the staging buffer only up to its 1027-byte
capacity — further bytes are silently dropped. -/
theorem capture_fill_run (n : Nat) :
    ∀ s : AnalyzerState,
    s.captureState = CaptureState.CAPTURE →
    s.pqState = PQState.IDLE →
    s.lengthBuffer = [] →
    s.capturedPacketLength < 65536 →
    (steps s (List.replicate n rxIn)).captureState = CaptureState.CAPTURE ∧
    (steps s (List.replicate n rxIn)).pqState = PQState.IDLE ∧
    (steps s (List.replicate n rxIn)).lengthBuffer = [] ∧
    (steps s (List.replicate n rxIn)).capturedPacketLength =
      (s.capturedPacketLength + n) % 65536 ∧
    (steps s (List.replicate n rxIn)).packetBuffer =
      s.packetBuffer ++ List.replicate
        (min n (MAX_PACKET_SIZE_BYTES - s.packetBuffer.length)) 0 := by
  induction n with
  | zero =>
      intro s hcap hpq hlb hlt
      refine ⟨hcap, hpq, hlb, by simpa using (Nat.mod_eq_of_lt hlt).symm,
        by simp [steps_nil]⟩
  | succ n ih =>
      intro s hcap hpq hlb hlt
      have hC : (step s rxIn).captureState = CaptureState.CAPTURE := by
        rw [step_captureState]
        simp [nextCaptureState, hcap, rxIn]
      have hQ : (step s rxIn).pqState = PQState.IDLE := by
        rw [step_pqState]
        simp [nextPQState, hpq, hlb]
      have hL : (step s rxIn).lengthBuffer = [] := by
        rw [step_lengthBuffer]
        unfold nextLengthBuffer
        have hw : lengthBufferWEn s rxIn = false := by
          simp [lengthBufferWEn, rxIn]
        have hr : lengthBufferREn s = false := by
          simp [lengthBufferREn, hpq]
        rw [hw, hr, fifoStep_idle, hlb]
      have hcpl : (step s rxIn).capturedPacketLength =
          (s.capturedPacketLength + 1) % 65536 := by
        rw [step_cpl]
        simp [nextCPL, hcap, byte_received, rxIn]
      have hPB : (step s rxIn).packetBuffer =
          if s.packetBuffer.length < MAX_PACKET_SIZE_BYTES
          then s.packetBuffer ++ [0] else s.packetBuffer := by
        rw [step_packetBuffer]
        unfold nextPacketBuffer
        have hw : packetBufferWEn s rxIn = true := by
          simp [packetBufferWEn, hcap, byte_received, rxIn]
        have hr : packetBufferREn s = false := by
          simp [packetBufferREn, hpq]
        rw [hw, hr]
        by_cases hroom2 : s.packetBuffer.length < MAX_PACKET_SIZE_BYTES
        · rw [if_pos hroom2]
          exact fifoStep_write _ _ _ hroom2
        · rw [if_neg hroom2]
          exact fifoStep_write_full _ _ _ hroom2
      have hrep : List.replicate (n + 1) rxIn = rxIn :: List.replicate n rxIn :=
        List.replicate_succ _ _
      rw [hrep, steps_cons]
      have ihx := ih (step s rxIn) hC hQ hL
        (by rw [hcpl]; exact Nat.mod_lt _ (by omega))
      refine ⟨ihx.1, ihx.2.1, ihx.2.2.1, ?_, ?_⟩
      · rw [ihx.2.2.2.1, hcpl]
        omega
      · rw [ihx.2.2.2.2, hPB]
        by_cases hroom : s.packetBuffer.length < MAX_PACKET_SIZE_BYTES
        · rw [if_pos hroom]
          rw [List.append_assoc]
          congr 1
          have hlen2 : (s.packetBuffer ++ [0]).length =
              s.packetBuffer.length + 1 := by simp
          rw [hlen2, List.singleton_append]
          have hmin : min (n + 1) (MAX_PACKET_SIZE_BYTES - s.packetBuffer.length)
              = min n (MAX_PACKET_SIZE_BYTES - (s.packetBuffer.length + 1))
                + 1 := by
            omega
          rw [hmin, List.replicate_succ]
        · rw [if_neg hroom]
          have hz : MAX_PACKET_SIZE_BYTES - s.packetBuffer.length = 0 := by
            omega
          rw [hz]
          simp

/-- The C4 counterexample trace: arm the analyzer, then one receive-active
episode of 1029 active-and-valid ticks (one observation tick + 1028
captured bytes), then the end-of-packet tick. -/
def c4trace : List AnalyzerInput :=
  ⟨false, false, 0, true, false⟩ :: rxIn ::
    (List.replicate 1028 rxIn ++ [⟨false, false, 0, true, false⟩])

/-- C4 counterexample: after a single oversized session (1028 counted
bytes against the 1027-byte staging capacity) the reachable state has
queued-lengths sum 1028 but staging fill level 1027 — the claimed
invariant "the sum of queued lengths never exceeds the staging fill
level" fails on a reachable state. -/
theorem c4_staging_invariant_cex :
    Reachable (steps (initState 8) c4trace) ∧
    (steps (initState 8) c4trace).packetBuffer.length <
      (steps (initState 8) c4trace).lengthBuffer.sum := by
  constructor
  · exact ⟨8, c4trace, rfl⟩
  · have e2 : step (step (initState 8) ⟨false, false, 0, true, false⟩) rxIn =
        ⟨8, CaptureState.CAPTURE, PQState.IDLE, 0, 0, 0, false, [], [], []⟩ := by
      decide
    unfold c4trace
    rw [steps_cons, steps_cons, e2, steps_append]
    set S : AnalyzerState :=
      steps ⟨8, CaptureState.CAPTURE, PQState.IDLE, 0, 0, 0, false, [], [], []⟩
        (List.replicate 1028 rxIn) with hS
    have hfill := capture_fill_run 1028
      ⟨8, CaptureState.CAPTURE, PQState.IDLE, 0, 0, 0, false, [], [], []⟩
      rfl rfl rfl (by decide)
    obtain ⟨f1, f2, f3, f4, f5⟩ := hfill
    rw [← hS] at f1 f2 f3 f4 f5
    have e3 : steps S [⟨false, false, 0, true, false⟩] =
        step S ⟨false, false, 0, true, false⟩ := rfl
    rw [e3]
    have hlb2 : (step S ⟨false, false, 0, true, false⟩).lengthBuffer = [1028] := by
      rw [step_lengthBuffer]
      unfold nextLengthBuffer
      have hw : lengthBufferWEn S ⟨false, false, 0, true, false⟩ = true := by
        simp [lengthBufferWEn, f1]
      have hr : lengthBufferREn S = false := by
        simp [lengthBufferREn, f2]
      rw [hw, hr, f3, f4]
      rw [fifoStep_write _ _ _ (by simp [LENGTH_FIFO_DEPTH])]
      decide
    have hpb2 : (step S ⟨false, false, 0, true, false⟩).packetBuffer.length =
        1027 := by
      rw [step_packetBuffer]
      unfold nextPacketBuffer
      have hw : packetBufferWEn S ⟨false, false, 0, true, false⟩ = false := by
        simp [packetBufferWEn, byte_received]
      have hr : packetBufferREn S = false := by
        simp [packetBufferREn, f2]
      rw [hw, hr, fifoStep_idle, f5, List.nil_append, List.length_replicate]
      unfold MAX_PACKET_SIZE_BYTES
      simp only [List.length_nil]
      omega
    rw [hlb2, hpb2]
    decide

end SOLAnalyzer
